import Mathlib

/-!
A verification development for the relay server's session and
request-correlation engine (`src/server.js`).

The engine state (active sessions, pending relay requests, armed timeout
timers, connection-attempt log) is embedded shallowly: JavaScript `Map`s
become association lists (insertion ordered, `Map.set` updates in place,
`Map.delete` removes by key), timers become an `armed` list of
(promise id, target request id) pairs, and each settled promise is recorded
in an append-only `resolutions` log.  Timestamps are integers
(milliseconds, as produced by `Date.now()`/`getTime()`).
-/

namespace Relay

/-- Lookup in an association list, mirroring JavaScript `Map.get`:
the first pair whose key matches. -/
def alookup {κ β : Type} [DecidableEq κ] (k : κ) : List (κ × β) → Option β
  | [] => none
  | (k', v) :: rest => if k' = k then some v else alookup k rest

/-- Update-or-append, mirroring JavaScript `Map.set`: if the key is present
its value is replaced in place (keeping insertion order), otherwise the new
pair is appended at the end. -/
def aset {κ β : Type} [DecidableEq κ] (k : κ) (v : β) : List (κ × β) → List (κ × β)
  | [] => [(k, v)]
  | (k', v') :: rest => if k' = k then (k, v) :: rest else (k', v') :: aset k v rest

/-- Removal by key, mirroring JavaScript `Map.delete` (on the duplicate-free
key lists the engine maintains, removing every pair with the key coincides
with removing the unique one). -/
def aerase {κ β : Type} [DecidableEq κ] (k : κ) : List (κ × β) → List (κ × β)
  | [] => []
  | (k', v) :: rest => if k' = k then aerase k rest else (k', v) :: aerase k rest

theorem alookup_mem {κ β : Type} [DecidableEq κ] {k : κ} {v : β} :
    ∀ {l : List (κ × β)}, alookup k l = some v → (k, v) ∈ l := by
  intro l
  induction l with
  | nil => intro h; simp [alookup] at h
  | cons p rest ih =>
    intro h
    obtain ⟨k', v'⟩ := p
    by_cases hk : k' = k
    · subst hk
      simp [alookup] at h
      subst h; exact List.mem_cons_self _ _
    · simp [alookup, hk] at h
      exact List.mem_cons_of_mem _ (ih h)

theorem mem_alookup {κ β : Type} [DecidableEq κ] {k : κ} {v : β} :
    ∀ {l : List (κ × β)}, (l.map Prod.fst).Nodup → (k, v) ∈ l → alookup k l = some v := by
  intro l
  induction l with
  | nil => intro _ h; simp at h
  | cons p rest ih =>
    intro hnd hm
    obtain ⟨k', v'⟩ := p
    rcases List.mem_cons.mp hm with heq | hmem
    · cases heq
      simp [alookup]
    · have hk : k' ≠ k := by
        intro hkk
        subst hkk
        have : k' ∈ rest.map Prod.fst := List.mem_map_of_mem Prod.fst hmem
        exact (List.nodup_cons.mp hnd).1 this
      simp [alookup, hk]
      exact ih (List.nodup_cons.mp hnd).2 hmem

theorem alookup_aset_self {κ β : Type} [DecidableEq κ] (k : κ) (v : β) :
    ∀ (l : List (κ × β)), alookup k (aset k v l) = some v := by
  intro l
  induction l with
  | nil => simp [aset, alookup]
  | cons p rest ih =>
    obtain ⟨k', v'⟩ := p
    by_cases hk : k' = k
    · simp [aset, hk, alookup]
    · simp [aset, hk, alookup, ih]

theorem alookup_aset_ne {κ β : Type} [DecidableEq κ] {k k' : κ} (v : β)
    (hne : k' ≠ k) : ∀ (l : List (κ × β)), alookup k' (aset k v l) = alookup k' l := by
  intro l
  have hkk : k ≠ k' := Ne.symm hne
  induction l with
  | nil => simp [aset, alookup, hkk]
  | cons p rest ih =>
    obtain ⟨k'', v''⟩ := p
    by_cases hk : k'' = k
    · subst hk
      simp [aset, alookup, hkk]
    · simp [aset, hk, alookup, ih]

theorem mem_aset {κ β : Type} [DecidableEq κ] {k : κ} {v : β} {x : κ × β} :
    ∀ {l : List (κ × β)}, x ∈ aset k v l → x = (k, v) ∨ x ∈ l := by
  intro l
  induction l with
  | nil => intro h; simp [aset] at h; exact Or.inl h
  | cons p rest ih =>
    intro h
    obtain ⟨k', v'⟩ := p
    by_cases hk : k' = k
    · simp only [aset, if_pos hk, List.mem_cons] at h
      rcases h with h | h
      · exact Or.inl h
      · exact Or.inr (List.mem_cons_of_mem _ h)
    · simp only [aset, if_neg hk, List.mem_cons] at h
      rcases h with h | h
      · exact Or.inr (by simp [h])
      · rcases ih h with h' | h'
        · exact Or.inl h'
        · exact Or.inr (List.mem_cons_of_mem _ h')

theorem mem_map_aset {κ β γ : Type} [DecidableEq κ] {f : κ × β → γ} {y : γ}
    {k : κ} {v : β} {l : List (κ × β)} :
    y ∈ (aset k v l).map f → y = f (k, v) ∨ y ∈ l.map f := by
  intro h
  obtain ⟨x, hx, hfx⟩ := List.mem_map.mp h
  rcases mem_aset hx with h' | h'
  · subst h'; exact Or.inl hfx.symm
  · exact Or.inr (List.mem_map.mpr ⟨x, h', hfx⟩)

theorem keys_aset_nodup {κ β : Type} [DecidableEq κ] (k : κ) (v : β) :
    ∀ {l : List (κ × β)}, (l.map Prod.fst).Nodup → ((aset k v l).map Prod.fst).Nodup := by
  intro l
  induction l with
  | nil => intro _; simp [aset]
  | cons p rest ih =>
    intro hnd
    obtain ⟨k', v'⟩ := p
    rw [List.map_cons, List.nodup_cons] at hnd
    by_cases hk : k' = k
    · subst hk
      rw [aset, if_pos rfl, List.map_cons, List.nodup_cons]
      exact ⟨hnd.1, hnd.2⟩
    · rw [aset, if_neg hk, List.map_cons, List.nodup_cons]
      refine ⟨?_, ih hnd.2⟩
      intro hmem
      rcases mem_map_aset hmem with h' | h'
      · exact hk h'
      · exact hnd.1 h'

theorem map_aset_nodup {κ β γ : Type} [DecidableEq κ] (k : κ) (v : β) (f : κ × β → γ) :
    ∀ {l : List (κ × β)}, (l.map f).Nodup → f (k, v) ∉ l.map f →
      ((aset k v l).map f).Nodup := by
  intro l
  induction l with
  | nil => intro _ _; simp [aset]
  | cons p rest ih =>
    intro hnd hnew
    obtain ⟨k', v'⟩ := p
    rw [List.map_cons, List.nodup_cons] at hnd
    rw [List.map_cons] at hnew
    have hnew1 : f (k, v) ≠ f (k', v') := fun h => hnew (by simp [h])
    have hnew2 : f (k, v) ∉ rest.map f := fun h => hnew (List.mem_cons_of_mem _ h)
    by_cases hk : k' = k
    · subst hk
      rw [aset, if_pos rfl, List.map_cons, List.nodup_cons]
      exact ⟨hnew2, hnd.2⟩
    · rw [aset, if_neg hk, List.map_cons, List.nodup_cons]
      refine ⟨?_, ih hnd.2 hnew2⟩
      intro hmem
      rcases mem_map_aset hmem with h' | h'
      · exact hnew1 h'.symm
      · exact hnd.1 h'

theorem aerase_sublist {κ β : Type} [DecidableEq κ] (k : κ) :
    ∀ (l : List (κ × β)), (aerase k l).Sublist l := by
  intro l
  induction l with
  | nil => exact List.Sublist.refl _
  | cons p rest ih =>
    obtain ⟨k', v'⟩ := p
    by_cases hk : k' = k
    · rw [aerase, if_pos hk]
      exact ih.cons _
    · rw [aerase, if_neg hk]
      exact ih.cons₂ _

theorem mem_aerase {κ β : Type} [DecidableEq κ] {k : κ} {x : κ × β} {l : List (κ × β)} :
    x ∈ aerase k l → x ∈ l := fun h => (aerase_sublist k l).mem h

theorem alookup_aerase_self {κ β : Type} [DecidableEq κ] (k : κ) :
    ∀ (l : List (κ × β)), alookup k (aerase k l) = none := by
  intro l
  induction l with
  | nil => rfl
  | cons p rest ih =>
    obtain ⟨k', v'⟩ := p
    by_cases hk : k' = k
    · rw [aerase, if_pos hk]
      exact ih
    · rw [aerase, if_neg hk]
      simp only [alookup, if_neg hk]
      exact ih

theorem alookup_aerase_ne {κ β : Type} [DecidableEq κ] {k k' : κ} (hne : k' ≠ k) :
    ∀ (l : List (κ × β)), alookup k' (aerase k l) = alookup k' l := by
  intro l
  induction l with
  | nil => rfl
  | cons p rest ih =>
    obtain ⟨k'', v''⟩ := p
    by_cases hk : k'' = k
    · rw [aerase, if_pos hk]
      have hne' : ¬ k'' = k' := fun h => hne (h.symm.trans hk)
      simp only [alookup, if_neg hne']
      exact ih
    · rw [aerase, if_neg hk]
      by_cases hk' : k'' = k'
      · simp only [alookup, if_pos hk']
      · simp only [alookup, if_neg hk']
        exact ih

theorem nodup_map_mem_inj {α γ : Type} {f : α → γ} {l : List α}
    (h : (l.map f).Nodup) {a b : α} (ha : a ∈ l) (hb : b ∈ l) (hfab : f a = f b) :
    a = b := by
  induction l with
  | nil => simp at ha
  | cons x rest ih =>
    rw [List.map_cons, List.nodup_cons] at h
    rcases List.mem_cons.mp ha with ha' | ha' <;> rcases List.mem_cons.mp hb with hb' | hb'
    · rw [ha', hb']
    · subst ha'
      exact absurd (List.mem_map.mpr ⟨b, hb', hfab.symm⟩) h.1
    · subst hb'
      exact absurd (List.mem_map.mpr ⟨a, ha', hfab⟩) h.1
    · exact ih h.2 ha' hb'

/-- Lookup of a kept pair after a `filter`, when keys are duplicate-free. -/
theorem alookup_filter_of_mem {κ β : Type} [DecidableEq κ] {k : κ} {v : β}
    {p : κ × β → Bool} {l : List (κ × β)}
    (hnd : (l.map Prod.fst).Nodup) (hm : (k, v) ∈ l) (hp : p (k, v) = true) :
    alookup k (l.filter p) = some v := by
  apply mem_alookup
  · exact List.Nodup.sublist (List.Sublist.map Prod.fst (List.filter_sublist l)) hnd
  · exact List.mem_filter.mpr ⟨hm, hp⟩

/-- Lookup of a dropped pair after a `filter`, when keys are duplicate-free. -/
theorem alookup_filter_of_not {κ β : Type} [DecidableEq κ] {k : κ} {v : β}
    {p : κ × β → Bool} {l : List (κ × β)}
    (hnd : (l.map Prod.fst).Nodup) (hm : (k, v) ∈ l) (hp : p (k, v) = false) :
    alookup k (l.filter p) = none := by
  cases hl : alookup k (l.filter p) with
  | none => rfl
  | some w =>
    exfalso
    have hmem := alookup_mem hl
    have hw : (k, w) ∈ l := (List.mem_filter.mp hmem).1
    have hvw : (k, v) = (k, w) := nodup_map_mem_inj hnd hm hw rfl
    cases hvw
    have hpt := (List.mem_filter.mp hmem).2
    rw [hpt] at hp
    exact Bool.noConfusion hp

/-! ### String measures

JavaScript's `String.prototype.length` counts UTF-16 code units: a code
point above U+FFFF contributes two units, every other one unit.
`utf8Length` counts the bytes of the UTF-8 encoding, the measure the spec
calls "byte length". -/

def jsUnits (c : Char) : Nat := if c.toNat < 0x10000 then 1 else 2

/-- The value of `JSON.stringify(request).length` in the size check of the
`localhost:execute` handler: UTF-16 code units of the serialized command. -/
def jsLength (s : String) : Nat := (s.data.map jsUnits).sum

def utf8CharBytes (c : Char) : Nat :=
  if c.toNat < 0x80 then 1 else if c.toNat < 0x800 then 2
  else if c.toNat < 0x10000 then 3 else 4

/-- Byte length of the UTF-8 encoding of a string. -/
def utf8Length (s : String) : Nat := (s.data.map utf8CharBytes).sum

/-! ### URL model

`isLocalhostUrl` in `src/server.js` (lines 422-451) parses its argument with
the WHATWG `URL` constructor and then inspects `protocol` and `hostname`.
`parseHttpUrl` models the constructor for the fragment of URL syntax the
relay meets: a scheme, `://`, an authority with optional userinfo and port,
and a host that is either a bracketed IPv6 literal (kept bracketed, as the
WHATWG `hostname` getter serializes IPv6 hosts inside `[...]`), a
dotted-decimal IPv4 address (validated and canonicalized to the four-octet
decimal form, as WHATWG IPv4 host parsing does), or a domain (lowercased).
Inputs outside the modelled fragment (hex or octal IPv4 labels, IPv4 labels
with leading zeros, percent-encoded or non-ASCII hosts, IPv6 literals that
need recompression) make the model return `none`; no theorem below
evaluates the parser on such an input. -/

structure UrlRec where
  protocol : String
  hostname : String
deriving DecidableEq, Repr

def lowerChars (cs : List Char) : List Char := cs.map Char.toLower

/-- `toLowerCase`/`toUpperCase` on the ASCII strings the engine meets,
written over the character list so that evaluation is definitional. -/
def lowerString (s : String) : String := String.mk (lowerChars s.data)

def upperString (s : String) : String := String.mk (s.data.map Char.toUpper)

def schemeOk : List Char → Bool
  | [] => false
  | c :: rest => c.isAlpha && rest.all (fun d => d.isAlphanum || d == '+' || d == '-' || d == '.')

def splitOnChar (sep : Char) : List Char → List (List Char)
  | [] => [[]]
  | c :: rest =>
    let r := splitOnChar sep rest
    if c == sep then [] :: r
    else (c :: r.headD []) :: r.tail

def digitsToNat (cs : List Char) : Nat := cs.foldl (fun a c => a * 10 + (c.toNat - 48)) 0

/-- A decimal IPv4 label inside the modelled fragment: nonempty, digits
only, no leading zero (leading zeros select WHATWG octal parsing, which is
outside the model). -/
def decLabelOk (cs : List Char) : Bool :=
  !cs.isEmpty && cs.all Char.isDigit && (cs.length == 1 || cs.headD '0' != '0')

def byteToDec (x : Nat) : List Char :=
  if x < 10 then [Char.ofNat (48 + x)]
  else if x < 100 then [Char.ofNat (48 + x / 10), Char.ofNat (48 + x % 10)]
  else [Char.ofNat (48 + x / 100), Char.ofNat (48 + x / 10 % 10), Char.ofNat (48 + x % 10)]

/-- WHATWG IPv4 host parsing on dot-separated decimal labels: at most four
labels, all but the last below 256, the last small enough for the remaining
bytes; the address is reserialized as the canonical dotted quad. -/
def ipv4Canon (labels : List (List Char)) : Option (List Char) :=
  if labels.isEmpty || decide (4 < labels.length) then none
  else if !(labels.all decLabelOk) then none
  else
    let vals := labels.map digitsToNat
    let n := labels.length
    let front := vals.dropLast
    let lastv := (vals.getLast?).getD 0
    if front.any (fun v => decide (256 ≤ v)) then none
    else if decide (256 ^ (5 - n) ≤ lastv) then none
    else
      let addr := (front.foldl (fun a v => a * 256 + v) 0) * 256 ^ (5 - n) + lastv
      some (byteToDec (addr / 16777216 % 256) ++ '.' :: byteToDec (addr / 65536 % 256) ++
            '.' :: byteToDec (addr / 256 % 256) ++ '.' :: byteToDec (addr % 256))

def validPortSuffix : List Char → Bool
  | [] => true
  | ':' :: ds => ds.all Char.isDigit && decide (digitsToNat ds ≤ 65535)
  | _ => false

/-- Host characters admitted by the domain branch of the model. -/
def hostCharOk (c : Char) : Bool :=
  c.isAlphanum || c == '-' || c == '_' || c == '.'

def parseHost (cs : List Char) : Option (List Char) :=
  if cs.isEmpty then none
  else
    let lower := lowerChars cs
    if !(lower.all hostCharOk) then none
    else
      let labels0 := splitOnChar '.' lower
      let labels := if labels0.getLast? == some ([] : List Char) then labels0.dropLast else labels0
      if labels.isEmpty || labels.any List.isEmpty then none
      else if ((labels.getLast?).getD []).all Char.isDigit then ipv4Canon labels
      else some lower

/-- Model of `new URL(url)` restricted to the observations the engine makes:
the `protocol` and `hostname` getters.  `none` is a parse failure (the
`catch` branch of `isLocalhostUrl`). -/
def parseHttpUrl (url : String) : Option UrlRec :=
  let cs := url.data
  let scheme := cs.takeWhile (fun c => c != ':')
  let rest := cs.drop scheme.length
  if !(schemeOk scheme) then none
  else
    match rest with
    | ':' :: '/' :: '/' :: tail =>
      let authority := tail.takeWhile (fun c => c != '/' && c != '?' && c != '#')
      let hostport := (authority.reverse.takeWhile (fun c => c != '@')).reverse
      let protocol := String.mk (lowerChars scheme) ++ ":"
      if hostport.headD ' ' == '[' then
        let inner := (hostport.drop 1).takeWhile (fun c => c != ']')
        let after := hostport.drop (inner.length + 2)
        if !(hostport.contains ']') then none
        else if inner.isEmpty then none
        else if !(validPortSuffix after) then none
        else some ⟨protocol, String.mk ('[' :: lowerChars inner ++ [']'])⟩
      else
        let host := hostport.takeWhile (fun c => c != ':')
        let after := hostport.drop host.length
        if !(validPortSuffix after) then none
        else
          match parseHost host with
          | none => none
          | some h => some ⟨protocol, String.mk h⟩
    | _ => none

/-- The character class `\d{1,3}` of the private-range regexes. -/
def d13 (cs : List Char) : Bool :=
  decide (1 ≤ cs.length) && decide (cs.length ≤ 3) && cs.all Char.isDigit

/-- The alternation `(1[6-9]|2[0-9]|3[0-1])` of the `172.16-31` regex. -/
def oct172 : List String :=
  ["16", "17", "18", "19", "20", "21", "22", "23",
   "24", "25", "26", "27", "28", "29", "30", "31"]

/-- `hostname.match(/^192\.168\.\d{1,3}\.\d{1,3}$/)` as a predicate. -/
def matches192 (h : String) : Bool :=
  match splitOnChar '.' h.data with
  | [a, b, c, d] => a == "192".data && b == "168".data && d13 c && d13 d
  | _ => false

/-- `hostname.match(/^10\.\d{1,3}\.\d{1,3}\.\d{1,3}$/)` as a predicate. -/
def matches10 (h : String) : Bool :=
  match splitOnChar '.' h.data with
  | [a, b, c, d] => a == "10".data && d13 b && d13 c && d13 d
  | _ => false

/-- `hostname.match(/^172\.(1[6-9]|2[0-9]|3[0-1])\.\d{1,3}\.\d{1,3}$/)`. -/
def matches172 (h : String) : Bool :=
  match splitOnChar '.' h.data with
  | [a, b, c, d] => a == "172".data && oct172.contains (String.mk b) && d13 c && d13 d
  | _ => false

/-- `isLocalhostUrl` from `src/server.js` lines 422-451: parse the URL (a
parse failure lands in the `catch` and yields `false`), require the `http:`
protocol, lowercase the hostname, accept the loopback names
`localhost`/`127.0.0.1`/`::1` and the three private-range regexes. -/
def isLocalhostUrl (url : String) : Bool :=
  match parseHttpUrl url with
  | none => false
  | some u =>
    if u.protocol != "http:" then false
    else
      let hostname := lowerString u.hostname
      if hostname == "localhost" || hostname == "127.0.0.1" || hostname == "::1" then true
      else if matches192 hostname || matches10 hostname || matches172 hostname then true
      else false

def stripBrackets (h : String) : String :=
  match h.data with
  | '[' :: rest => if rest.getLast? == some ']' then String.mk rest.dropLast else h
  | _ => h

def quadVals (h : String) : Option (Nat × Nat × Nat × Nat) :=
  match splitOnChar '.' h.data with
  | [a, b, c, d] =>
    if [a, b, c, d].all (fun l => !l.isEmpty && l.all Char.isDigit) then
      some (digitsToNat a, digitsToNat b, digitsToNat c, digitsToNat d)
    else none
  | _ => none

/-- The spec's `isRelayTarget` (§4.5), stated in the spec's own terms for
comparison with the implementation: unsecured `http` scheme, and a hostname
that is loopback (`localhost`, `127.0.0.1`, or the IPv6 address `::1`) or
lies within `10.0.0.0/8`, `172.16.0.0/12` or `192.168.0.0/16`. -/
def isRelayTargetSpec (url : String) : Bool :=
  match parseHttpUrl url with
  | none => false
  | some u =>
    u.protocol == "http:" &&
      (let h := stripBrackets u.hostname
       h == "localhost" || h == "127.0.0.1" || h == "::1" ||
       (match quadVals h with
        | some (a, b, _, _) =>
          a == 10 || (a == 172 && decide (16 ≤ b) && decide (b ≤ 31)) ||
            (a == 192 && b == 168)
        | none => false))

/-! ### Engine state

One record per JavaScript global of the engine: `activeSessions`,
`pendingRequests`, the set of armed `setTimeout` handles (identified by the
promise they would reject, paired with the request id they would delete),
`connectionAttempts`, plus a ghost `resolutions` log that records, append
only, every `resolve`/`reject` call performed on a stored promise, and a
`nextPid` counter that hands out promise identities. -/

structure Session where
  userId : String
  connectedAt : Int
  lastActivity : Int
  requestCount : Nat
  ip : String
deriving DecidableEq, Repr

/-- The `localhost:execute` payload.  The three fields the handler validates
are optional strings (`none` models an absent or non-string field; the
falsiness test also treats `""` as missing); `serialized` stands for
`JSON.stringify(request)`, modelled at the interface because stringification
is a runtime builtin the handler only measures. -/
structure Req where
  requestId : Option String
  method : Option String
  url : Option String
  serialized : String
deriving DecidableEq, Repr

/-- A `pendingRequests` entry: `{requestData, resolve, reject, timeout,
sessionId}`, with the resolve/reject pair and the timeout handle both
represented by the promise id `pid`. -/
structure Entry where
  sessionId : String
  pid : Nat
  requestData : Req
deriving DecidableEq, Repr

/-- Which of the four terminal paths settled a promise.  The payload passed
to `resolve`/`reject` is not inspected by the engine afterwards, so the log
records only the path taken. -/
inductive Outcome
  | completed
  | errored
  | timedOut
  | cancelled
deriving DecidableEq, Repr

structure RState where
  sessions : List (String × Session)
  pending : List (String × Entry)
  armed : List (Nat × String)
  resolutions : List (Nat × Outcome)
  nextPid : Nat
  attempts : List (String × List Int)
deriving DecidableEq, Repr

def initState : RState := ⟨[], [], [], [], 0, []⟩

/-- JavaScript falsiness of an optional string field
(`undefined`/non-string or the empty string). -/
def falsyOptStr : Option String → Bool
  | none => true
  | some s => s == ""

/-! ### Connection admission (io.use middleware, lines 161-194) -/

inductive DenyReason
  | tooManyAttempts
  | missingIdentity
  | originNotAllowed
deriving DecidableEq, Repr

/-- The admission middleware: prune the address's attempt list to the
trailing 60 s window, deny when 10 or more remain (`MAX_CONNECTIONS_PER_IP`),
otherwise record `now` and only then check the auth `userId` and the
`origin` header.  On a rate-limit denial the map is left untouched. -/
def recentOf (s : RState) (ip : String) (now : Int) : List Int :=
  ((alookup ip s.attempts).getD []).filter (fun t => decide (now - t < 60000))

def stepAuthorize (s : RState) (allowedOrigins : List String) (ip : String)
    (userId origin : Option String) (now : Int) : RState × Option DenyReason :=
  if decide (10 ≤ (recentOf s ip now).length) then (s, some .tooManyAttempts)
  else if falsyOptStr userId then
    ({ s with attempts := aset ip (recentOf s ip now ++ [now]) s.attempts },
      some .missingIdentity)
  else if !(falsyOptStr origin) && !(decide ((origin.getD "") ∈ allowedOrigins)) then
    ({ s with attempts := aset ip (recentOf s ip now ++ [now]) s.attempts },
      some .originNotAllowed)
  else ({ s with attempts := aset ip (recentOf s ip now ++ [now]) s.attempts }, none)

/-- Session creation at the top of the `connection` handler (lines 197-217). -/
def stepConnect (s : RState) (sid : String) (userId : Option String) (ip : String)
    (now : Int) : RState :=
  let uid := if falsyOptStr userId then "anonymous" else userId.getD ""
  { s with sessions := aset sid ⟨uid, now, now, 0, ip⟩ s.sessions }

/-! ### The localhost:execute handler (lines 220-316) -/

/-- What the handler does synchronously: nothing (callback not a function),
an immediate error acknowledgment, a `localhost:performFetch` dispatch with
a fresh pending promise — or `fatal`: the TypeError thrown by the log
line's property access on a null/undefined payload, which escapes the
async handler, so no acknowledgment is delivered and the process-level
`unhandledRejection` handler (lines 473-481) exits the process. -/
inductive ExecResult
  | silent
  | cbError (msg : String)
  | dispatched (cmd : Req) (pid : Nat)
  | fatal
deriving DecidableEq, Repr

def validMethods : List String :=
  ["GET", "POST", "PUT", "DELETE", "PATCH", "HEAD", "OPTIONS"]

/-- The session touch performed before validation (lines 234-236). -/
def touchSession (now : Int) (sess : Session) : Session :=
  { sess with lastActivity := now, requestCount := sess.requestCount + 1 }

/-- The state after the session touch of lines 234-236. -/
def touchState (s : RState) (sid : String) (now : Int) (sess : Session) : RState :=
  { s with sessions := aset sid (touchSession now sess) s.sessions }

/-- The `localhost:execute` handler from the log line's successful
evaluation onward, in source order: callback guard, session lookup,
session touch, request-shape guard (`none` here models a non-null
non-object payload, whose property reads yield `undefined` and which the
guard at line 239 rejects), required fields, `isLocalhostUrl`, method
allow-list, 64 KiB size limit on `JSON.stringify(request).length`, then
promise creation (timeout armed, entry stored — `Map.set`, overwriting any
entry already at that id) and the `performFetch` dispatch. -/
def stepExecuteBody (s : RState) (sid : String) (payload : Option Req) (cbOk : Bool)
    (now : Int) : RState × ExecResult :=
  if !cbOk then (s, .silent)
  else
    match alookup sid s.sessions with
    | none => (s, .cbError "Session not found")
    | some sess =>
      match payload with
      | none => (touchState s sid now sess, .cbError "Invalid request format")
      | some req =>
        if falsyOptStr req.requestId || falsyOptStr req.method || falsyOptStr req.url then
          (touchState s sid now sess,
            .cbError "Missing required fields: requestId, method, url")
        else if !(isLocalhostUrl (req.url.getD "")) then
          (touchState s sid now sess,
            .cbError "Only localhost URLs are allowed for relay execution")
        else if !(decide ((upperString (req.method.getD "")) ∈ validMethods)) then
          (touchState s sid now sess, .cbError "Invalid HTTP method")
        else if decide (64 * 1024 < jsLength req.serialized) then
          (touchState s sid now sess, .cbError "Request too large")
        else
          ({ sessions := aset sid (touchSession now sess) s.sessions,
             pending := aset (req.requestId.getD "") ⟨sid, s.nextPid, req⟩ s.pending,
             armed := s.armed ++ [(s.nextPid, req.requestId.getD "")],
             resolutions := s.resolutions,
             nextPid := s.nextPid + 1,
             attempts := s.attempts },
            .dispatched req s.nextPid)

/-- The three JavaScript classes of `localhost:execute` payload the
handler distinguishes: `nullish` is `null` or `undefined` — the template
literal at line 221 reads `request.method` and throws a TypeError before
the callback guard is ever reached; `primitive` is any other non-object
value (string, number, boolean), whose property reads yield `undefined`
so the handler proceeds normally to the shape guard; `obj` is an object
payload with the fields the handler inspects. -/
inductive ExecPayload
  | nullish
  | primitive
  | obj (req : Req)
deriving DecidableEq, Repr

/-- The `localhost:execute` handler (lines 220-316).  The log line at 221
interpolates `request.method` before anything else: a null or undefined
payload therefore throws a TypeError out of the async handler — no
acknowledgment, no state change, and the process-level
`unhandledRejection` handler makes the escape fatal — while every other
payload reaches the guarded body. -/
def stepExecute (s : RState) (sid : String) (payload : ExecPayload) (cbOk : Bool)
    (now : Int) : RState × ExecResult :=
  match payload with
  | .nullish => (s, .fatal)
  | .primitive => stepExecuteBody s sid none cbOk now
  | .obj req => stepExecuteBody s sid (some req) cbOk now

/-! ### Browser return channel (lines 319-360) -/

/-- The `localhost:fetchComplete` payload; the handler reads only
`requestId` and hands the rest to the stored `resolve` untouched. -/
structure FCPayload where
  requestId : Option String
deriving DecidableEq, Repr

/-- The `localhost:fetchError` payload. -/
structure FEPayload where
  requestId : Option String
  error : Option String
deriving DecidableEq, Repr

/-- The `localhost:fetchComplete` handler: object guard, lookup by
`requestId`, session-affinity check against the receiving socket's session,
then `clearTimeout`, `resolve`, `delete` in one synchronous step. -/
def stepFetchComplete (s : RState) (sid : String) (payload : Option FCPayload) : RState :=
  match payload with
  | none => s
  | some resp =>
    match resp.requestId with
    | none => s
    | some rid =>
      match alookup rid s.pending with
      | none => s
      | some pending =>
        if pending.sessionId ≠ sid then s
        else
          { s with
            armed := aerase pending.pid s.armed,
            resolutions := s.resolutions ++ [(pending.pid, Outcome.completed)],
            pending := aerase rid s.pending }

/-- The `localhost:fetchError` handler: object-and-`requestId` guard (a
falsy `requestId` returns early), then the same affinity-gated
`clearTimeout`, `reject`, `delete`. -/
def stepFetchError (s : RState) (sid : String) (payload : Option FEPayload) : RState :=
  match payload with
  | none => s
  | some data =>
    if falsyOptStr data.requestId then s
    else
      match alookup (data.requestId.getD "") s.pending with
      | none => s
      | some pending =>
        if pending.sessionId ≠ sid then s
        else
          { s with
            armed := aerase pending.pid s.armed,
            resolutions := s.resolutions ++ [(pending.pid, Outcome.errored)],
            pending := aerase (data.requestId.getD "") s.pending }

/-! ### Timeout, disconnect, reaper -/

/-- Firing of the timeout armed at submission (lines 288-291).  Only an
armed (never-cleared) timer can fire; its callback deletes whatever entry
currently sits at its captured request id and rejects its own promise with
the timeout error. -/
def stepTimerFire (s : RState) (pid : Nat) : RState :=
  match alookup pid s.armed with
  | none => s
  | some rid =>
    { s with
      armed := aerase pid s.armed,
      pending := aerase rid s.pending,
      resolutions := s.resolutions ++ [(pid, Outcome.timedOut)] }

/-- The `disconnect` handler (lines 363-377): drop the session, then for
every pending request of this session clear its timer, reject its promise
with the connection-closed error, and delete it. -/
def ownedBy (s : RState) (sid : String) : List (String × Entry) :=
  s.pending.filter (fun p => decide (p.2.sessionId = sid))

def stepDisconnect (s : RState) (sid : String) : RState :=
  { s with
    sessions := aerase sid s.sessions,
    pending := s.pending.filter (fun p => !(decide (p.2.sessionId = sid))),
    armed := s.armed.filter (fun a => !(decide (a.1 ∈ (ownedBy s sid).map (fun p => p.2.pid)))),
    resolutions := s.resolutions ++ (ownedBy s sid).map (fun p => (p.2.pid, Outcome.cancelled)) }

/-- `(now - lastActivity) / 1000 / 60 > sessionTimeoutMinutes`, cleared of
the (exact) divisions. -/
def sessionExpired (now timeoutMin : Int) (sess : Session) : Bool :=
  decide (timeoutMin * 60000 < now - sess.lastActivity)

/-- The reaper's compaction of `connectionAttempts` (lines 410-418): keep
timestamps newer than `now - 60000`, drop addresses left empty. -/
def pruneAttempts (now : Int) (l : List (String × List Int)) : List (String × List Int) :=
  (l.map (fun p => (p.1, p.2.filter (fun t => decide (now - 60000 < t))))).filter
    (fun p => !p.2.isEmpty)

/-- One tick of `cleanupInterval` (lines 389-419): delete every session idle
beyond the timeout, delete each of its pending requests after clearing its
timer — without rejecting its promise — and compact the attempt log. -/
def expiredIdsOf (s : RState) (now timeoutMin : Int) : List String :=
  (s.sessions.filter (fun p => sessionExpired now timeoutMin p.2)).map Prod.fst

def reapedOf (s : RState) (now timeoutMin : Int) : List (String × Entry) :=
  s.pending.filter (fun p => decide (p.2.sessionId ∈ expiredIdsOf s now timeoutMin))

def stepReaper (s : RState) (now timeoutMin : Int) : RState :=
  { s with
    sessions := s.sessions.filter (fun p => !(sessionExpired now timeoutMin p.2)),
    pending := s.pending.filter
      (fun p => !(decide (p.2.sessionId ∈ expiredIdsOf s now timeoutMin))),
    armed := s.armed.filter
      (fun a => !(decide (a.1 ∈ (reapedOf s now timeoutMin).map (fun p => p.2.pid)))),
    attempts := pruneAttempts now s.attempts }

/-! ### Event interleaving

All handlers share one cooperative execution stream; a system trace is any
interleaving of handler activations, with every parameter (clock values,
payloads, configured origin list, timeout configuration) free. -/

inductive Ev
  | connect (sid : String) (userId : Option String) (ip : String) (now : Int)
  | authorize (allowed : List String) (ip : String) (userId origin : Option String) (now : Int)
  | execute (sid : String) (payload : ExecPayload) (cbOk : Bool) (now : Int)
  | fetchComplete (sid : String) (payload : Option FCPayload)
  | fetchError (sid : String) (payload : Option FEPayload)
  | timerFire (pid : Nat)
  | disconnect (sid : String)
  | reaper (now timeoutMin : Int)

def stepEv (s : RState) : Ev → RState
  | .connect sid u ip now => stepConnect s sid u ip now
  | .authorize al ip u o now => (stepAuthorize s al ip u o now).1
  | .execute sid p cb now => (stepExecute s sid p cb now).1
  | .fetchComplete sid p => stepFetchComplete s sid p
  | .fetchError sid p => stepFetchError s sid p
  | .timerFire pid => stepTimerFire s pid
  | .disconnect sid => stepDisconnect s sid
  | .reaper now t => stepReaper s now t

/-- States the engine can be in: the empty start state and everything a
handler activation can produce from a reachable state. -/
inductive Reach : RState → Prop
  | init : Reach initState
  | step (s : RState) (e : Ev) : Reach s → Reach (stepEv s e)

/-! ### The engine invariant

Freshness and uniqueness facts tying the promise counter, the armed
timers, the pending map and the resolution log together; they hold in
every reachable state and are what makes each settlement the first (and
only) one for its promise. -/

def resPids (s : RState) : List Nat := s.resolutions.map Prod.fst

def pendPids (s : RState) : List Nat := s.pending.map (fun p => p.2.pid)

structure Inv (s : RState) : Prop where
  resNodup : (resPids s).Nodup
  pendNodup : (pendPids s).Nodup
  pendKeysNodup : (s.pending.map Prod.fst).Nodup
  sessKeysNodup : (s.sessions.map Prod.fst).Nodup
  pendFresh : ∀ p ∈ s.pending, p.2.pid ∉ resPids s
  armFresh : ∀ a ∈ s.armed, a.1 ∉ resPids s
  pendLt : ∀ p ∈ s.pending, p.2.pid < s.nextPid
  armLt : ∀ a ∈ s.armed, a.1 < s.nextPid
  resLt : ∀ q ∈ s.resolutions, q.1 < s.nextPid
  armPend : ∀ a ∈ s.armed, ∀ p ∈ s.pending, p.2.pid = a.1 → p.1 = a.2

theorem nodup_append_single {α : Type} {l : List α} {x : α} (h : l.Nodup) (hx : x ∉ l) :
    (l ++ [x]).Nodup := by
  rw [List.nodup_append]
  refine ⟨h, List.nodup_singleton x, ?_⟩
  intro a ha hb
  rw [List.mem_singleton] at hb
  subst hb
  exact hx ha

theorem mem_aerase_ne {κ β : Type} [DecidableEq κ] {k : κ} {x : κ × β} :
    ∀ {l : List (κ × β)}, x ∈ aerase k l → x.1 ≠ k := by
  intro l
  induction l with
  | nil => intro h; simp [aerase] at h
  | cons p rest ih =>
    intro h
    obtain ⟨k', v'⟩ := p
    by_cases hk : k' = k
    · rw [aerase, if_pos hk] at h
      exact ih h
    · rw [aerase, if_neg hk] at h
      rcases List.mem_cons.mp h with h' | h'
      · subst h'; exact hk
      · exact ih h'

theorem inv_congr {s s' : RState} (h : Inv s)
    (hsess : (s'.sessions.map Prod.fst).Nodup)
    (hp : s'.pending = s.pending) (ha : s'.armed = s.armed)
    (hr : s'.resolutions = s.resolutions) (hn : s'.nextPid = s.nextPid) : Inv s' := by
  constructor
  · simp only [resPids]; rw [hr]; exact h.resNodup
  · simp only [pendPids]; rw [hp]; exact h.pendNodup
  · rw [hp]; exact h.pendKeysNodup
  · exact hsess
  · simp only [resPids]; rw [hp, hr]; exact h.pendFresh
  · simp only [resPids]; rw [ha, hr]; exact h.armFresh
  · rw [hp, hn]; exact h.pendLt
  · rw [ha, hn]; exact h.armLt
  · rw [hr, hn]; exact h.resLt
  · rw [ha, hp]; exact h.armPend

theorem inv_initState : Inv initState := by
  constructor <;> simp [initState, resPids, pendPids]

theorem inv_stepConnect (s : RState) (h : Inv s) (sid : String) (u : Option String)
    (ip : String) (now : Int) : Inv (stepConnect s sid u ip now) := by
  refine inv_congr h ?_ rfl rfl rfl rfl
  exact keys_aset_nodup _ _ h.sessKeysNodup

theorem inv_stepAuthorize (s : RState) (h : Inv s) (al : List String) (ip : String)
    (u o : Option String) (now : Int) : Inv (stepAuthorize s al ip u o now).1 := by
  unfold stepAuthorize
  split
  · exact h
  · split
    · exact inv_congr h h.sessKeysNodup rfl rfl rfl rfl
    · split
      · exact inv_congr h h.sessKeysNodup rfl rfl rfl rfl
      · exact inv_congr h h.sessKeysNodup rfl rfl rfl rfl

/-- Invariant preservation for the dispatch branch of the execute handler. -/
theorem inv_dispatch (s : RState) (h : Inv s) (sid : String) (sess : Session)
    (now : Int) (rid : String) (req : Req) :
    Inv { sessions := aset sid (touchSession now sess) s.sessions,
          pending := aset rid ⟨sid, s.nextPid, req⟩ s.pending,
          armed := s.armed ++ [(s.nextPid, rid)],
          resolutions := s.resolutions,
          nextPid := s.nextPid + 1,
          attempts := s.attempts } := by
  constructor
  · exact h.resNodup
  · refine map_aset_nodup _ _ _ h.pendNodup ?_
    intro hmem
    obtain ⟨p, hp, hpe⟩ := List.mem_map.mp hmem
    exact absurd hpe (Nat.ne_of_lt (h.pendLt p hp))
  · exact keys_aset_nodup _ _ h.pendKeysNodup
  · exact keys_aset_nodup _ _ h.sessKeysNodup
  · intro p hp
    rcases mem_aset hp with h' | h'
    · subst h'
      intro hmem
      obtain ⟨q, hq, hqe⟩ := List.mem_map.mp hmem
      exact absurd hqe (Nat.ne_of_lt (h.resLt q hq))
    · exact h.pendFresh p h'
  · intro a ha
    rcases List.mem_append.mp ha with h' | h'
    · exact h.armFresh a h'
    · rw [List.mem_singleton] at h'
      subst h'
      intro hmem
      obtain ⟨q, hq, hqe⟩ := List.mem_map.mp hmem
      exact absurd hqe (Nat.ne_of_lt (h.resLt q hq))
  · intro p hp
    rcases mem_aset hp with h' | h'
    · subst h'; exact Nat.lt_succ_self _
    · exact Nat.lt_succ_of_lt (h.pendLt p h')
  · intro a ha
    rcases List.mem_append.mp ha with h' | h'
    · exact Nat.lt_succ_of_lt (h.armLt a h')
    · rw [List.mem_singleton] at h'
      subst h'
      exact Nat.lt_succ_self _
  · intro q hq
    exact Nat.lt_succ_of_lt (h.resLt q hq)
  · intro a ha p hp hpa
    rcases List.mem_append.mp ha with ha' | ha'
    · rcases mem_aset hp with hp' | hp'
      · exfalso
        subst hp'
        have h1 := h.armLt a ha'
        have hEq : a.1 = s.nextPid := hpa.symm
        rw [hEq] at h1
        exact lt_irrefl _ h1
      · exact h.armPend a ha' p hp' hpa
    · rw [List.mem_singleton] at ha'
      subst ha'
      rcases mem_aset hp with hp' | hp'
      · subst hp'
        rfl
      · exfalso
        have h1 := h.pendLt p hp'
        have hEq : p.2.pid = s.nextPid := hpa
        rw [hEq] at h1
        exact lt_irrefl _ h1

theorem inv_stepExecuteBody (s : RState) (h : Inv s) (sid : String)
    (payload : Option Req) (cbOk : Bool) (now : Int) :
    Inv (stepExecuteBody s sid payload cbOk now).1 := by
  unfold stepExecuteBody
  split
  · exact h
  · split
    · exact h
    · split
      · exact inv_congr h (keys_aset_nodup _ _ h.sessKeysNodup) rfl rfl rfl rfl
      · split
        · exact inv_congr h (keys_aset_nodup _ _ h.sessKeysNodup) rfl rfl rfl rfl
        · split
          · exact inv_congr h (keys_aset_nodup _ _ h.sessKeysNodup) rfl rfl rfl rfl
          · split
            · exact inv_congr h (keys_aset_nodup _ _ h.sessKeysNodup) rfl rfl rfl rfl
            · split
              · exact inv_congr h (keys_aset_nodup _ _ h.sessKeysNodup) rfl rfl rfl rfl
              · exact inv_dispatch s h sid _ now _ _

theorem inv_stepExecute (s : RState) (h : Inv s) (sid : String)
    (payload : ExecPayload) (cbOk : Bool) (now : Int) :
    Inv (stepExecute s sid payload cbOk now).1 := by
  cases payload with
  | nullish => exact h
  | primitive => exact inv_stepExecuteBody s h sid none cbOk now
  | obj req => exact inv_stepExecuteBody s h sid (some req) cbOk now

/-- Invariant preservation for the resolve branch shared by
`fetchComplete` and `fetchError`. -/
theorem inv_resolve (s : RState) (h : Inv s) (rid : String) (e : Entry) (oc : Outcome)
    (he : alookup rid s.pending = some e) :
    Inv { sessions := s.sessions,
          pending := aerase rid s.pending,
          armed := aerase e.pid s.armed,
          resolutions := s.resolutions ++ [(e.pid, oc)],
          nextPid := s.nextPid,
          attempts := s.attempts } := by
  have hmem : (rid, e) ∈ s.pending := alookup_mem he
  constructor
  · simp only [resPids, List.map_append, List.map_cons, List.map_nil]
    exact nodup_append_single h.resNodup (h.pendFresh _ hmem)
  · exact List.Nodup.sublist (List.Sublist.map _ (aerase_sublist rid s.pending)) h.pendNodup
  · exact List.Nodup.sublist (List.Sublist.map _ (aerase_sublist rid s.pending)) h.pendKeysNodup
  · exact h.sessKeysNodup
  · intro p hp
    have hp' := mem_aerase hp
    have hpne := mem_aerase_ne hp
    simp only [resPids, List.map_append, List.map_cons, List.map_nil]
    intro hcon
    rcases List.mem_append.mp hcon with hcon | hcon
    · exact h.pendFresh p hp' hcon
    · rw [List.mem_singleton] at hcon
      have hpe : p = (rid, e) := nodup_map_mem_inj h.pendNodup hp' hmem hcon
      rw [hpe] at hpne
      exact hpne rfl
  · intro a ha
    have ha' := mem_aerase ha
    have hane := mem_aerase_ne ha
    simp only [resPids, List.map_append, List.map_cons, List.map_nil]
    intro hcon
    rcases List.mem_append.mp hcon with hcon | hcon
    · exact h.armFresh a ha' hcon
    · rw [List.mem_singleton] at hcon
      exact hane hcon
  · intro p hp
    exact h.pendLt p (mem_aerase hp)
  · intro a ha
    exact h.armLt a (mem_aerase ha)
  · intro q hq
    rcases List.mem_append.mp hq with hq | hq
    · exact h.resLt q hq
    · rw [List.mem_singleton] at hq
      subst hq
      exact h.pendLt _ hmem
  · intro a ha p hp hpa
    exact h.armPend a (mem_aerase ha) p (mem_aerase hp) hpa

theorem inv_stepFetchComplete (s : RState) (h : Inv s) (sid : String)
    (payload : Option FCPayload) : Inv (stepFetchComplete s sid payload) := by
  cases payload with
  | none => exact h
  | some resp =>
    cases hrid : resp.requestId with
    | none => simpa [stepFetchComplete, hrid] using h
    | some rid =>
      cases he : alookup rid s.pending with
      | none => simpa [stepFetchComplete, hrid, he] using h
      | some e =>
        by_cases hs : e.sessionId ≠ sid
        · simpa [stepFetchComplete, hrid, he, hs] using h
        · simp only [stepFetchComplete, hrid, he, if_neg hs]
          exact inv_resolve s h rid e Outcome.completed he

theorem inv_stepFetchError (s : RState) (h : Inv s) (sid : String)
    (payload : Option FEPayload) : Inv (stepFetchError s sid payload) := by
  cases payload with
  | none => exact h
  | some data =>
    by_cases hf : falsyOptStr data.requestId = true
    · simpa [stepFetchError, hf] using h
    · cases he : alookup (data.requestId.getD "") s.pending with
      | none => simpa [stepFetchError, hf, he] using h
      | some e =>
        by_cases hs : e.sessionId ≠ sid
        · simpa [stepFetchError, hf, he, hs] using h
        · simp only [stepFetchError, Bool.not_eq_true] at *
          simp only [stepFetchError, hf, he, if_neg hs, Bool.false_eq_true, if_false]
          exact inv_resolve s h _ e Outcome.errored he

theorem inv_stepTimerFire (s : RState) (h : Inv s) (pid : Nat) :
    Inv (stepTimerFire s pid) := by
  unfold stepTimerFire
  split
  · exact h
  · rename_i rid he
    have hmem : (pid, rid) ∈ s.armed := alookup_mem he
    constructor
    · simp only [resPids, List.map_append, List.map_cons, List.map_nil]
      exact nodup_append_single h.resNodup (h.armFresh _ hmem)
    · exact List.Nodup.sublist (List.Sublist.map _ (aerase_sublist rid s.pending)) h.pendNodup
    · exact List.Nodup.sublist (List.Sublist.map _ (aerase_sublist rid s.pending))
        h.pendKeysNodup
    · exact h.sessKeysNodup
    · intro p hp
      have hp' := mem_aerase hp
      have hpne := mem_aerase_ne hp
      simp only [resPids, List.map_append, List.map_cons, List.map_nil]
      intro hcon
      rcases List.mem_append.mp hcon with hcon | hcon
      · exact h.pendFresh p hp' hcon
      · rw [List.mem_singleton] at hcon
        exact hpne (h.armPend (pid, rid) hmem p hp' hcon)
    · intro a ha
      have ha' := mem_aerase ha
      have hane := mem_aerase_ne ha
      simp only [resPids, List.map_append, List.map_cons, List.map_nil]
      intro hcon
      rcases List.mem_append.mp hcon with hcon | hcon
      · exact h.armFresh a ha' hcon
      · rw [List.mem_singleton] at hcon
        exact hane hcon
    · intro p hp
      exact h.pendLt p (mem_aerase hp)
    · intro a ha
      exact h.armLt a (mem_aerase ha)
    · intro q hq
      rcases List.mem_append.mp hq with hq | hq
      · exact h.resLt q hq
      · rw [List.mem_singleton] at hq
        subst hq
        exact h.armLt _ hmem
    · intro a ha p hp hpa
      exact h.armPend a (mem_aerase ha) p (mem_aerase hp) hpa

theorem inv_stepDisconnect (s : RState) (h : Inv s) (sid : String) :
    Inv (stepDisconnect s sid) := by
  have hop : ∀ x ∈ (ownedBy s sid).map (fun p => (p.2.pid, Outcome.cancelled)),
      x.1 ∈ (ownedBy s sid).map (fun p => p.2.pid) := by
    intro x hx
    obtain ⟨p, hp, hpe⟩ := List.mem_map.mp hx
    subst hpe
    exact List.mem_map.mpr ⟨p, hp, rfl⟩
  have howned : ∀ q ∈ ownedBy s sid, q ∈ s.pending := by
    intro q hq
    exact (List.mem_filter.mp hq).1
  have hopid : ∀ x ∈ (ownedBy s sid).map (fun p => p.2.pid),
      ∃ q ∈ s.pending, decide (q.2.sessionId = sid) = true ∧ q.2.pid = x := by
    intro x hx
    obtain ⟨p, hp, hpe⟩ := List.mem_map.mp hx
    exact ⟨p, (List.mem_filter.mp hp).1, (List.mem_filter.mp hp).2, hpe⟩
  refine ⟨?_, ?_, ?_, ?_, ?_, ?_, ?_, ?_, ?_, ?_⟩ <;>
    dsimp only [stepDisconnect, resPids, pendPids]
  · simp only [List.map_append, List.map_map]
    rw [List.nodup_append]
    refine ⟨h.resNodup, ?_, ?_⟩
    · have : ((ownedBy s sid).map (fun p => p.2.pid)).Nodup := by
        refine List.Nodup.sublist (List.Sublist.map _ ?_) h.pendNodup
        exact List.filter_sublist s.pending
      simpa [Function.comp] using this
    · intro x hx hx'
      obtain ⟨p, hp, hpe⟩ := List.mem_map.mp hx'
      subst hpe
      exact h.pendFresh p (howned p hp) hx
  · refine List.Nodup.sublist (List.Sublist.map _ (List.filter_sublist s.pending)) h.pendNodup
  · exact List.Nodup.sublist (List.Sublist.map _ (List.filter_sublist s.pending)) h.pendKeysNodup
  · exact List.Nodup.sublist (List.Sublist.map Prod.fst (aerase_sublist sid s.sessions))
      h.sessKeysNodup
  · intro p hp
    have hp' := (List.mem_filter.mp hp).1
    have hkept := (List.mem_filter.mp hp).2
    simp only [List.map_append, List.map_map]
    intro hcon
    rcases List.mem_append.mp hcon with hcon | hcon
    · exact h.pendFresh p hp' hcon
    · obtain ⟨q, hq, hqe⟩ := List.mem_map.mp hcon
      have hq' := howned q hq
      have hqsid := (List.mem_filter.mp hq).2
      have : q = p := nodup_map_mem_inj h.pendNodup hq' hp' (by simpa using hqe)
      subst this
      rw [hqsid] at hkept
      exact Bool.noConfusion hkept
  · intro a ha
    have ha' := (List.mem_filter.mp ha).1
    have hkept := (List.mem_filter.mp ha).2
    simp only [List.map_append, List.map_map]
    intro hcon
    rcases List.mem_append.mp hcon with hcon | hcon
    · exact h.armFresh a ha' hcon
    · obtain ⟨q, hq, hqe⟩ := List.mem_map.mp hcon
      have : a.1 ∈ (ownedBy s sid).map (fun p => p.2.pid) :=
        List.mem_map.mpr ⟨q, hq, by simpa using hqe⟩
      rw [Bool.not_eq_true', decide_eq_false_iff_not] at hkept
      exact hkept this
  · intro p hp
    exact h.pendLt p (List.mem_filter.mp hp).1
  · intro a ha
    exact h.armLt a (List.mem_filter.mp ha).1
  · intro q hq
    rcases List.mem_append.mp hq with hq | hq
    · exact h.resLt q hq
    · obtain ⟨p, hp, hpe⟩ := List.mem_map.mp hq
      subst hpe
      exact h.pendLt p (howned p hp)
  · intro a ha p hp hpa
    exact h.armPend a (List.mem_filter.mp ha).1 p (List.mem_filter.mp hp).1 hpa

theorem inv_stepReaper (s : RState) (h : Inv s) (now timeoutMin : Int) :
    Inv (stepReaper s now timeoutMin) := by
  refine ⟨?_, ?_, ?_, ?_, ?_, ?_, ?_, ?_, ?_, ?_⟩ <;>
    dsimp only [stepReaper, resPids, pendPids]
  · exact h.resNodup
  · exact List.Nodup.sublist (List.Sublist.map _ (List.filter_sublist s.pending)) h.pendNodup
  · exact List.Nodup.sublist (List.Sublist.map _ (List.filter_sublist s.pending)) h.pendKeysNodup
  · exact List.Nodup.sublist (List.Sublist.map Prod.fst (List.filter_sublist s.sessions))
      h.sessKeysNodup
  · intro p hp
    exact h.pendFresh p (List.mem_filter.mp hp).1
  · intro a ha
    exact h.armFresh a (List.mem_filter.mp ha).1
  · intro p hp
    exact h.pendLt p (List.mem_filter.mp hp).1
  · intro a ha
    exact h.armLt a (List.mem_filter.mp ha).1
  · exact h.resLt
  · intro a ha p hp hpa
    exact h.armPend a (List.mem_filter.mp ha).1 p (List.mem_filter.mp hp).1 hpa

theorem inv_stepEv (s : RState) (h : Inv s) (e : Ev) : Inv (stepEv s e) := by
  cases e with
  | connect sid u ip now => exact inv_stepConnect s h sid u ip now
  | authorize al ip u o now => exact inv_stepAuthorize s h al ip u o now
  | execute sid p cb now => exact inv_stepExecute s h sid p cb now
  | fetchComplete sid p => exact inv_stepFetchComplete s h sid p
  | fetchError sid p => exact inv_stepFetchError s h sid p
  | timerFire pid => exact inv_stepTimerFire s h pid
  | disconnect sid => exact inv_stepDisconnect s h sid
  | reaper now t => exact inv_stepReaper s h now t

/-- Every reachable engine state satisfies the invariant. -/
theorem reach_inv {s : RState} (h : Reach s) : Inv s := by
  induction h with
  | init => exact inv_initState
  | step s e _ ih => exact inv_stepEv s ih e

/-! ### Resolution-log frame lemmas

Each handler either leaves the resolution log unchanged or appends to it;
nothing is ever rewritten or removed. -/

theorem stepAuthorize_resolutions (s : RState) (al : List String) (ip : String)
    (u o : Option String) (now : Int) :
    (stepAuthorize s al ip u o now).1.resolutions = s.resolutions := by
  unfold stepAuthorize
  split
  · rfl
  · split
    · rfl
    · split
      · rfl
      · rfl

theorem stepExecuteBody_resolutions (s : RState) (sid : String) (payload : Option Req)
    (cbOk : Bool) (now : Int) :
    (stepExecuteBody s sid payload cbOk now).1.resolutions = s.resolutions := by
  unfold stepExecuteBody
  split
  · rfl
  · split
    · rfl
    · split
      · rfl
      · split
        · rfl
        · split
          · rfl
          · split
            · rfl
            · split
              · rfl
              · rfl

theorem stepExecute_resolutions (s : RState) (sid : String) (payload : ExecPayload)
    (cbOk : Bool) (now : Int) :
    (stepExecute s sid payload cbOk now).1.resolutions = s.resolutions := by
  cases payload with
  | nullish => rfl
  | primitive => exact stepExecuteBody_resolutions s sid none cbOk now
  | obj req => exact stepExecuteBody_resolutions s sid (some req) cbOk now

theorem stepFetchComplete_resolutions (s : RState) (sid : String)
    (payload : Option FCPayload) :
    ∃ l, (stepFetchComplete s sid payload).resolutions = s.resolutions ++ l := by
  unfold stepFetchComplete
  split
  · exact ⟨[], (List.append_nil _).symm⟩
  · split
    · exact ⟨[], (List.append_nil _).symm⟩
    · split
      · exact ⟨[], (List.append_nil _).symm⟩
      · split
        · exact ⟨[], (List.append_nil _).symm⟩
        · exact ⟨_, rfl⟩

theorem stepFetchError_resolutions (s : RState) (sid : String)
    (payload : Option FEPayload) :
    ∃ l, (stepFetchError s sid payload).resolutions = s.resolutions ++ l := by
  unfold stepFetchError
  split
  · exact ⟨[], (List.append_nil _).symm⟩
  · split
    · exact ⟨[], (List.append_nil _).symm⟩
    · split
      · exact ⟨[], (List.append_nil _).symm⟩
      · split
        · exact ⟨[], (List.append_nil _).symm⟩
        · exact ⟨_, rfl⟩

theorem stepTimerFire_resolutions (s : RState) (pid : Nat) :
    ∃ l, (stepTimerFire s pid).resolutions = s.resolutions ++ l := by
  unfold stepTimerFire
  split
  · exact ⟨[], (List.append_nil _).symm⟩
  · exact ⟨_, rfl⟩

theorem stepEv_resolutions_append (s : RState) (e : Ev) :
    ∃ l, (stepEv s e).resolutions = s.resolutions ++ l := by
  cases e with
  | connect sid u ip now => exact ⟨[], (List.append_nil _).symm⟩
  | authorize al ip u o now =>
    exact ⟨[], by rw [stepEv, stepAuthorize_resolutions, List.append_nil]⟩
  | execute sid p cb now =>
    exact ⟨[], by rw [stepEv, stepExecute_resolutions, List.append_nil]⟩
  | fetchComplete sid p => exact stepFetchComplete_resolutions s sid p
  | fetchError sid p => exact stepFetchError_resolutions s sid p
  | timerFire pid => exact stepTimerFire_resolutions s pid
  | disconnect sid => exact ⟨_, rfl⟩
  | reaper now t => exact ⟨[], (List.append_nil _).symm⟩

/-! ### Concrete fixtures

A small concrete run of the engine: one or two admitted sessions and a
validated relay submission, used by the witnesses and counterexamples. -/

def goodReq : Req :=
  { requestId := some "r1", method := some "GET",
    url := some "http://localhost:3000/api", serialized := "serialized-cmd-1" }

def goodReq2 : Req :=
  { requestId := some "r1", method := some "POST",
    url := some "http://127.0.0.1:8080/x", serialized := "serialized-cmd-2" }

def badReq : Req :=
  { requestId := some "r1", method := some "GET",
    url := none, serialized := "serialized-cmd-3" }

def exReq : Req :=
  { requestId := some "r9", method := some "GET",
    url := some "http://example.com/", serialized := "serialized-cmd-4" }

def wsConnect : RState := stepConnect initState "s1" (some "user-1") "9.9.9.9" 0

def wsOne : RState := (stepExecute wsConnect "s1" (ExecPayload.obj goodReq) true 5).1

def ws2 : RState := stepConnect wsConnect "s2" (some "user-2") "8.8.8.8" 1

def ws2One : RState := (stepExecute ws2 "s1" (ExecPayload.obj goodReq) true 5).1

theorem reach_wsConnect : Reach wsConnect :=
  Reach.step initState (Ev.connect "s1" (some "user-1") "9.9.9.9" 0) Reach.init

theorem reach_wsOne : Reach wsOne :=
  Reach.step wsConnect (Ev.execute "s1" (ExecPayload.obj goodReq) true 5) reach_wsConnect

theorem reach_ws2 : Reach ws2 :=
  Reach.step wsConnect (Ev.connect "s2" (some "user-2") "8.8.8.8" 1) reach_wsConnect

theorem reach_ws2One : Reach ws2One :=
  Reach.step ws2 (Ev.execute "s1" (ExecPayload.obj goodReq) true 5) reach_ws2

/-! ### Claim theorems -/

/-- C1: in every reachable engine state the resolution log settles each
promise at most once (so at most one of Completed / Errored / TimedOut /
Cancelled ever fulfills a given future), the log only ever grows, and when
a request's timeout fires first — the timer still armed — the promise is
rejected with Timeout for the first time, the request id disappears from
the pending map, and a later `fetchComplete` carrying that request id (from
any session) is a no-op on the whole state. -/
theorem c1_at_most_one_resolution (s : RState) (hreach : Reach s) :
    (resPids s).Nodup ∧
    (∀ e : Ev, ∃ l, (stepEv s e).resolutions = s.resolutions ++ l) ∧
    (∀ pid rid, alookup pid s.armed = some rid →
      (stepTimerFire s pid).resolutions = s.resolutions ++ [(pid, Outcome.timedOut)] ∧
      pid ∉ resPids s ∧
      alookup rid (stepTimerFire s pid).pending = none ∧
      (∀ sid fc, FCPayload.requestId fc = some rid →
        stepFetchComplete (stepTimerFire s pid) sid (some fc) = stepTimerFire s pid)) := by
  have hinv := reach_inv hreach
  refine ⟨hinv.resNodup, stepEv_resolutions_append s, ?_⟩
  intro pid rid he
  have hmem : (pid, rid) ∈ s.armed := alookup_mem he
  have hfire : stepTimerFire s pid
      = { s with armed := aerase pid s.armed,
                 pending := aerase rid s.pending,
                 resolutions := s.resolutions ++ [(pid, Outcome.timedOut)] } := by
    unfold stepTimerFire
    rw [he]
  have hgone : alookup rid (stepTimerFire s pid).pending = none := by
    rw [hfire]
    exact alookup_aerase_self rid s.pending
  refine ⟨by rw [hfire], hinv.armFresh _ hmem, hgone, ?_⟩
  intro sid fc hfc
  simp only [stepFetchComplete, hfc, hgone]

/-- C1 witness: the guarantees instantiated at the concrete reachable state
with one admitted session and one validated pending request. -/
theorem c1_witness :
    (resPids wsOne).Nodup ∧
    (∀ e : Ev, ∃ l, (stepEv wsOne e).resolutions = wsOne.resolutions ++ l) ∧
    (∀ pid rid, alookup pid wsOne.armed = some rid →
      (stepTimerFire wsOne pid).resolutions
        = wsOne.resolutions ++ [(pid, Outcome.timedOut)] ∧
      pid ∉ resPids wsOne ∧
      alookup rid (stepTimerFire wsOne pid).pending = none ∧
      (∀ sid fc, FCPayload.requestId fc = some rid →
        stepFetchComplete (stepTimerFire wsOne pid) sid (some fc)
          = stepTimerFire wsOne pid)) :=
  c1_at_most_one_resolution wsOne reach_wsOne

/-- C3: a `fetchComplete` or `fetchError` carrying a pending request's id is
honored — timer cleared, outcome logged, entry removed, everything else
untouched — exactly when it arrives on the session that created the
request; from any other session it is silently dropped and the whole state
(the entry included) is unchanged. -/
theorem c3_session_affinity (s : RState) (sid rid : String) (e : Entry)
    (hrid : rid ≠ "") (hp : alookup rid s.pending = some e) :
    (∀ fc : FCPayload, fc.requestId = some rid →
      (e.sessionId = sid →
        alookup e.pid (stepFetchComplete s sid (some fc)).armed = none ∧
        (stepFetchComplete s sid (some fc)).resolutions
          = s.resolutions ++ [(e.pid, Outcome.completed)] ∧
        alookup rid (stepFetchComplete s sid (some fc)).pending = none ∧
        (∀ rid2, rid2 ≠ rid →
          alookup rid2 (stepFetchComplete s sid (some fc)).pending
            = alookup rid2 s.pending) ∧
        (stepFetchComplete s sid (some fc)).sessions = s.sessions) ∧
      (e.sessionId ≠ sid → stepFetchComplete s sid (some fc) = s)) ∧
    (∀ fe : FEPayload, fe.requestId = some rid →
      (e.sessionId = sid →
        alookup e.pid (stepFetchError s sid (some fe)).armed = none ∧
        (stepFetchError s sid (some fe)).resolutions
          = s.resolutions ++ [(e.pid, Outcome.errored)] ∧
        alookup rid (stepFetchError s sid (some fe)).pending = none ∧
        (∀ rid2, rid2 ≠ rid →
          alookup rid2 (stepFetchError s sid (some fe)).pending
            = alookup rid2 s.pending) ∧
        (stepFetchError s sid (some fe)).sessions = s.sessions) ∧
      (e.sessionId ≠ sid → stepFetchError s sid (some fe) = s)) := by
  constructor
  · intro fc hfc
    constructor
    · intro hsid
      have hstep : stepFetchComplete s sid (some fc)
          = { s with armed := aerase e.pid s.armed,
                     resolutions := s.resolutions ++ [(e.pid, Outcome.completed)],
                     pending := aerase rid s.pending } := by
        simp [stepFetchComplete, hfc, hp, hsid]
      rw [hstep]
      exact ⟨alookup_aerase_self _ _, rfl, alookup_aerase_self _ _,
        fun rid2 h2 => alookup_aerase_ne h2 _, rfl⟩
    · intro hsid
      simp [stepFetchComplete, hfc, hp, hsid]
  · intro fe hfe
    have hguard : falsyOptStr fe.requestId = false := by
      rw [hfe]
      simpa [falsyOptStr] using hrid
    have hget : fe.requestId.getD "" = rid := by rw [hfe]; rfl
    constructor
    · intro hsid
      have hstep : stepFetchError s sid (some fe)
          = { s with armed := aerase e.pid s.armed,
                     resolutions := s.resolutions ++ [(e.pid, Outcome.errored)],
                     pending := aerase rid s.pending } := by
        simp [stepFetchError, hguard, hget, hp, hsid]
      rw [hstep]
      exact ⟨alookup_aerase_self _ _, rfl, alookup_aerase_self _ _,
        fun rid2 h2 => alookup_aerase_ne h2 _, rfl⟩
    · intro hsid
      simp [stepFetchError, hguard, hget, hp, hsid]

/-- C3 witness: the affinity property instantiated at the concrete state
with two admitted sessions, for events arriving on the wrong session
`"s2"` while `"s1"` owns the pending request. -/
theorem c3_witness :
    ("r1" ≠ "" ∧ alookup "r1" ws2One.pending = some ⟨"s1", 0, goodReq⟩) ∧
    (∀ fc : FCPayload, fc.requestId = some "r1" →
      ((⟨"s1", 0, goodReq⟩ : Entry).sessionId = "s2" →
        alookup (⟨"s1", 0, goodReq⟩ : Entry).pid
          (stepFetchComplete ws2One "s2" (some fc)).armed = none ∧
        (stepFetchComplete ws2One "s2" (some fc)).resolutions
          = ws2One.resolutions ++ [((⟨"s1", 0, goodReq⟩ : Entry).pid, Outcome.completed)] ∧
        alookup "r1" (stepFetchComplete ws2One "s2" (some fc)).pending = none ∧
        (∀ rid2, rid2 ≠ "r1" →
          alookup rid2 (stepFetchComplete ws2One "s2" (some fc)).pending
            = alookup rid2 ws2One.pending) ∧
        (stepFetchComplete ws2One "s2" (some fc)).sessions = ws2One.sessions) ∧
      ((⟨"s1", 0, goodReq⟩ : Entry).sessionId ≠ "s2" →
        stepFetchComplete ws2One "s2" (some fc) = ws2One)) ∧
    (∀ fe : FEPayload, fe.requestId = some "r1" →
      ((⟨"s1", 0, goodReq⟩ : Entry).sessionId = "s2" →
        alookup (⟨"s1", 0, goodReq⟩ : Entry).pid
          (stepFetchError ws2One "s2" (some fe)).armed = none ∧
        (stepFetchError ws2One "s2" (some fe)).resolutions
          = ws2One.resolutions ++ [((⟨"s1", 0, goodReq⟩ : Entry).pid, Outcome.errored)] ∧
        alookup "r1" (stepFetchError ws2One "s2" (some fe)).pending = none ∧
        (∀ rid2, rid2 ≠ "r1" →
          alookup rid2 (stepFetchError ws2One "s2" (some fe)).pending
            = alookup rid2 ws2One.pending) ∧
        (stepFetchError ws2One "s2" (some fe)).sessions = ws2One.sessions) ∧
      ((⟨"s1", 0, goodReq⟩ : Entry).sessionId ≠ "s2" →
        stepFetchError ws2One "s2" (some fe) = ws2One)) :=
  ⟨⟨by decide, by rfl⟩,
    c3_session_affinity ws2One "s2" "r1" ⟨"s1", 0, goodReq⟩ (by decide) (by rfl)⟩

/-- C10 counterexample: an execute event carrying a null/undefined payload
does not return silently, even with a non-function acknowledgment
callback — the log line's property access throws before the callback
guard, ending the handler fatally instead (the engine state itself stays
untouched). -/
theorem c10_counterexample :
    stepExecute wsConnect "s1" ExecPayload.nullish false 5
      = (wsConnect, ExecResult.fatal) ∧
    ExecResult.fatal ≠ ExecResult.silent :=
  ⟨rfl, by decide⟩

/-- C10 (amended): structurally invalid protocol payloads never mutate
engine state; the handler returns silently for an execute whose
acknowledgment callback is not a function and whose payload is not
null/undefined, for a `fetchComplete` whose payload is not an object, and
for a `fetchError` whose payload is not an object or carries a falsy
`requestId` — but an execute whose payload is null or undefined throws a
TypeError from the log line before the callback guard, which escapes the
handler (fatal under the process's unhandledRejection handler) rather
than returning silently. -/
theorem c10_amended_malformed_payloads (s : RState) :
    (∀ sid req now, stepExecute s sid (ExecPayload.obj req) false now
        = (s, ExecResult.silent)) ∧
    (∀ sid now, stepExecute s sid ExecPayload.primitive false now
        = (s, ExecResult.silent)) ∧
    (∀ sid cbOk now, stepExecute s sid ExecPayload.nullish cbOk now
        = (s, ExecResult.fatal)) ∧
    (∀ sid, stepFetchComplete s sid none = s) ∧
    (∀ sid, stepFetchError s sid none = s) ∧
    (∀ sid fe, falsyOptStr (FEPayload.requestId fe) = true →
      stepFetchError s sid (some fe) = s) := by
  refine ⟨fun sid req now => rfl, fun sid now => rfl, fun sid cbOk now => rfl,
    fun sid => rfl, fun sid => rfl, ?_⟩
  intro sid fe hf
  simp only [stepFetchError, hf, if_true]

/-- C10 witness: the no-op guarantees instantiated at the concrete
one-request state, with a `fetchError` payload whose `requestId` is the
(falsy) empty string. -/
theorem c10_witness :
    falsyOptStr (FEPayload.requestId ⟨some "", some "boom"⟩) = true ∧
    stepFetchError wsOne "s1" (some ⟨some "", some "boom"⟩) = wsOne :=
  ⟨by decide,
    (c10_amended_malformed_payloads wsOne).2.2.2.2.2 "s1" ⟨some "", some "boom"⟩
      (by decide)⟩

/-- C2 counterexample: in the concrete reachable state with one pending
request, an idle-reaper destruction of the owning session removes the
PendingRequest but resolves nothing — the promise is never rejected with
ConnectionClosed, contradicting the claim that every session destruction
rejects its outstanding requests. -/
theorem c2_counterexample :
    alookup "r1" wsOne.pending = some ⟨"s1", 0, goodReq⟩ ∧
    alookup "s1" (stepReaper wsOne 10000000 10).sessions = none ∧
    (stepReaper wsOne 10000000 10).pending = [] ∧
    (stepReaper wsOne 10000000 10).resolutions = [] :=
  ⟨by decide, by decide, by decide, by decide⟩

/-- C2 (amended): on a `disconnect`, every PendingRequest of the departing
session is removed in the same step and its promise rejected with
ConnectionClosed (logged `cancelled`), and every other session's entries
are untouched; the idle reaper likewise removes every PendingRequest of a
reaped session synchronously and leaves other sessions' entries in place,
but rejects nothing — its victims' futures are dropped unresolved rather
than rejected with ConnectionClosed. -/
theorem c2_amended_session_teardown (s : RState) (hreach : Reach s) :
    (∀ sid,
      alookup sid (stepDisconnect s sid).sessions = none ∧
      (stepDisconnect s sid).resolutions
        = s.resolutions ++ (ownedBy s sid).map (fun p => (p.2.pid, Outcome.cancelled)) ∧
      (∀ rid e, alookup rid s.pending = some e →
        (e.sessionId = sid →
          alookup rid (stepDisconnect s sid).pending = none ∧
          (e.pid, Outcome.cancelled) ∈ (stepDisconnect s sid).resolutions) ∧
        (e.sessionId ≠ sid → alookup rid (stepDisconnect s sid).pending = some e)) ∧
      (∀ sid2, sid2 ≠ sid →
        alookup sid2 (stepDisconnect s sid).sessions = alookup sid2 s.sessions)) ∧
    (∀ now timeoutMin,
      (stepReaper s now timeoutMin).resolutions = s.resolutions ∧
      (∀ rid e sess, alookup rid s.pending = some e →
        alookup e.sessionId s.sessions = some sess →
        (sessionExpired now timeoutMin sess = true →
          alookup rid (stepReaper s now timeoutMin).pending = none) ∧
        (sessionExpired now timeoutMin sess = false →
          alookup rid (stepReaper s now timeoutMin).pending = some e))) := by
  have hinv := reach_inv hreach
  constructor
  · intro sid
    refine ⟨alookup_aerase_self _ _, rfl, ?_, ?_⟩
    · intro rid e hp
      have hmem := alookup_mem hp
      constructor
      · intro hsid
        constructor
        · apply alookup_filter_of_not hinv.pendKeysNodup hmem
          simp [hsid]
        · apply List.mem_append_right
          apply List.mem_map.mpr
          refine ⟨(rid, e), ?_, rfl⟩
          exact List.mem_filter.mpr ⟨hmem, by simp [hsid]⟩
      · intro hsid
        apply alookup_filter_of_mem hinv.pendKeysNodup hmem
        simp [hsid]
    · intro sid2 h2
      exact alookup_aerase_ne h2 _
  · intro now timeoutMin
    refine ⟨rfl, ?_⟩
    intro rid e sess hp hsess
    have hpmem := alookup_mem hp
    have hsmem := alookup_mem hsess
    constructor
    · intro hexp
      apply alookup_filter_of_not hinv.pendKeysNodup hpmem
      have hin : e.sessionId ∈ expiredIdsOf s now timeoutMin := by
        apply List.mem_map.mpr
        refine ⟨(e.sessionId, sess), ?_, rfl⟩
        exact List.mem_filter.mpr ⟨hsmem, hexp⟩
      simp [hin]
    · intro hexp
      apply alookup_filter_of_mem hinv.pendKeysNodup hpmem
      have hnin : e.sessionId ∉ expiredIdsOf s now timeoutMin := by
        intro hin
        obtain ⟨q, hq, hqe⟩ := List.mem_map.mp hin
        have hq1 := (List.mem_filter.mp hq).1
        have hq2 := (List.mem_filter.mp hq).2
        have hqs : q = (e.sessionId, sess) :=
          nodup_map_mem_inj hinv.sessKeysNodup hq1 hsmem hqe
        rw [hqs] at hq2
        have hq2' : sessionExpired now timeoutMin sess = true := hq2
        rw [hexp] at hq2'
        exact Bool.noConfusion hq2'
      simp [hnin]

/-- C2 witness: the teardown guarantees instantiated at the concrete
reachable state with two sessions and one pending request. -/
theorem c2_witness :
    (∀ sid,
      alookup sid (stepDisconnect ws2One sid).sessions = none ∧
      (stepDisconnect ws2One sid).resolutions
        = ws2One.resolutions
            ++ (ownedBy ws2One sid).map (fun p => (p.2.pid, Outcome.cancelled)) ∧
      (∀ rid e, alookup rid ws2One.pending = some e →
        (e.sessionId = sid →
          alookup rid (stepDisconnect ws2One sid).pending = none ∧
          (e.pid, Outcome.cancelled) ∈ (stepDisconnect ws2One sid).resolutions) ∧
        (e.sessionId ≠ sid →
          alookup rid (stepDisconnect ws2One sid).pending = some e)) ∧
      (∀ sid2, sid2 ≠ sid →
        alookup sid2 (stepDisconnect ws2One sid).sessions
          = alookup sid2 ws2One.sessions)) ∧
    (∀ now timeoutMin,
      (stepReaper ws2One now timeoutMin).resolutions = ws2One.resolutions ∧
      (∀ rid e sess, alookup rid ws2One.pending = some e →
        alookup e.sessionId ws2One.sessions = some sess →
        (sessionExpired now timeoutMin sess = true →
          alookup rid (stepReaper ws2One now timeoutMin).pending = none) ∧
        (sessionExpired now timeoutMin sess = false →
          alookup rid (stepReaper ws2One now timeoutMin).pending = some e))) :=
  c2_amended_session_teardown ws2One reach_ws2One

/-- C4 counterexample: a submission that fails validation (missing `url`)
does get the ValidationError acknowledgment, but the owning session's
record is mutated all the same — `lastActivity` moves from 0 to 5 and
`requestCount` from 0 to 1 — contradicting the claim that no engine state
(including those two fields) changes. -/
theorem c4_counterexample :
    (stepExecute wsConnect "s1" (ExecPayload.obj badReq) true 5).2
      = ExecResult.cbError "Missing required fields: requestId, method, url" ∧
    alookup "s1" wsConnect.sessions = some ⟨"user-1", 0, 0, 0, "9.9.9.9"⟩ ∧
    alookup "s1" (stepExecute wsConnect "s1" (ExecPayload.obj badReq) true 5).1.sessions
      = some ⟨"user-1", 0, 5, 1, "9.9.9.9"⟩ :=
  ⟨by decide, by decide, by decide⟩

/-- The disjunction of the execute handler's four validation rejections,
grouped exactly as the handler tests them. -/
def validationFails (req : Req) : Bool :=
  (falsyOptStr req.requestId || falsyOptStr req.method || falsyOptStr req.url) ||
    (!(isLocalhostUrl (req.url.getD ""))) ||
    (!(decide ((upperString (req.method.getD "")) ∈ validMethods))) ||
    (decide (64 * 1024 < jsLength req.serialized))

/-- C4 (amended): a submission that fails validation returns an immediate
ValidationError acknowledgment and creates no PendingRequest, arms no
timer, dispatches nothing and resolves nothing — but the owning session is
touched first, so its `lastActivity` and `requestCount` do change; every
other piece of engine state is left exactly as it was. -/
theorem c4_amended_validation_frame (s : RState) (sid : String) (req : Req)
    (sess : Session) (now : Int) (hs : alookup sid s.sessions = some sess)
    (hv : validationFails req = true) :
    (∃ msg, (stepExecute s sid (ExecPayload.obj req) true now).2 = ExecResult.cbError msg) ∧
    (stepExecute s sid (ExecPayload.obj req) true now).1.pending = s.pending ∧
    (stepExecute s sid (ExecPayload.obj req) true now).1.armed = s.armed ∧
    (stepExecute s sid (ExecPayload.obj req) true now).1.resolutions = s.resolutions ∧
    (stepExecute s sid (ExecPayload.obj req) true now).1.nextPid = s.nextPid ∧
    (stepExecute s sid (ExecPayload.obj req) true now).1.attempts = s.attempts ∧
    (stepExecute s sid (ExecPayload.obj req) true now).1.sessions
      = aset sid (touchSession now sess) s.sessions := by
  by_cases h1 : (falsyOptStr req.requestId || falsyOptStr req.method
      || falsyOptStr req.url) = true
  · have hstep : stepExecute s sid (ExecPayload.obj req) true now
        = (touchState s sid now sess,
            ExecResult.cbError "Missing required fields: requestId, method, url") := by
      simp [stepExecute, stepExecuteBody, hs, h1]
    rw [hstep]
    exact ⟨⟨_, rfl⟩, rfl, rfl, rfl, rfl, rfl, rfl⟩
  · rw [Bool.not_eq_true] at h1
    by_cases h2 : (!(isLocalhostUrl (req.url.getD ""))) = true
    · have hstep : stepExecute s sid (ExecPayload.obj req) true now
          = (touchState s sid now sess,
              ExecResult.cbError "Only localhost URLs are allowed for relay execution") := by
        simp [stepExecute, stepExecuteBody, hs, h1, h2]
      rw [hstep]
      exact ⟨⟨_, rfl⟩, rfl, rfl, rfl, rfl, rfl, rfl⟩
    · rw [Bool.not_eq_true] at h2
      by_cases h3 : (!(decide ((upperString (req.method.getD "")) ∈ validMethods))) = true
      · have hstep : stepExecute s sid (ExecPayload.obj req) true now
            = (touchState s sid now sess, ExecResult.cbError "Invalid HTTP method") := by
          simp [stepExecute, stepExecuteBody, hs, h1, h2, h3]
        rw [hstep]
        exact ⟨⟨_, rfl⟩, rfl, rfl, rfl, rfl, rfl, rfl⟩
      · rw [Bool.not_eq_true] at h3
        by_cases h4 : (decide (64 * 1024 < jsLength req.serialized)) = true
        · have hstep : stepExecute s sid (ExecPayload.obj req) true now
              = (touchState s sid now sess, ExecResult.cbError "Request too large") := by
            simp [stepExecute, stepExecuteBody, hs, h1, h2, h3, h4]
          rw [hstep]
          exact ⟨⟨_, rfl⟩, rfl, rfl, rfl, rfl, rfl, rfl⟩
        · rw [Bool.not_eq_true] at h4
          exfalso
          simp [validationFails, h1, h2, h3, h4] at hv

/-- C4 witness: the amended frame property instantiated at the concrete
admitted session and the request with a missing `url`. -/
theorem c4_witness :
    (alookup "s1" wsConnect.sessions = some ⟨"user-1", 0, 0, 0, "9.9.9.9"⟩ ∧
      validationFails badReq = true) ∧
    ((∃ msg, (stepExecute wsConnect "s1" (ExecPayload.obj badReq) true 5).2
        = ExecResult.cbError msg) ∧
      (stepExecute wsConnect "s1" (ExecPayload.obj badReq) true 5).1.pending
        = wsConnect.pending ∧
      (stepExecute wsConnect "s1" (ExecPayload.obj badReq) true 5).1.armed = wsConnect.armed ∧
      (stepExecute wsConnect "s1" (ExecPayload.obj badReq) true 5).1.resolutions
        = wsConnect.resolutions ∧
      (stepExecute wsConnect "s1" (ExecPayload.obj badReq) true 5).1.nextPid
        = wsConnect.nextPid ∧
      (stepExecute wsConnect "s1" (ExecPayload.obj badReq) true 5).1.attempts
        = wsConnect.attempts ∧
      (stepExecute wsConnect "s1" (ExecPayload.obj badReq) true 5).1.sessions
        = aset "s1" (touchSession 5 ⟨"user-1", 0, 0, 0, "9.9.9.9"⟩)
            wsConnect.sessions) :=
  ⟨⟨by decide, by decide⟩,
    c4_amended_validation_frame wsConnect "s1" badReq ⟨"user-1", 0, 0, 0, "9.9.9.9"⟩ 5
      (by decide) (by decide)⟩

/-- The execute handler's dispatch branch in closed form: with the session
present and every validation passing, the handler touches the session,
stores the entry (overwriting whatever sat at that request id), arms the
timer, bumps the promise counter and dispatches. -/
theorem execute_dispatch_eq (s : RState) (sid : String) (req : Req) (sess : Session)
    (now : Int) (hs : alookup sid s.sessions = some sess)
    (hv : validationFails req = false) :
    stepExecute s sid (ExecPayload.obj req) true now
      = ({ sessions := aset sid (touchSession now sess) s.sessions,
           pending := aset (req.requestId.getD "") ⟨sid, s.nextPid, req⟩ s.pending,
           armed := s.armed ++ [(s.nextPid, req.requestId.getD "")],
           resolutions := s.resolutions,
           nextPid := s.nextPid + 1,
           attempts := s.attempts }, ExecResult.dispatched req s.nextPid) := by
  simp only [validationFails, Bool.or_eq_false_iff] at hv
  obtain ⟨⟨⟨⟨⟨h1, h2⟩, h3⟩, h4⟩, h5⟩, h6⟩ := hv
  simp [stepExecute, stepExecuteBody, hs, h1, h2, h3, h4, h5, h6]

/-- C5 counterexample: with `"r1"` already pending, a second valid
submission carrying the same request id is not rejected — it is dispatched
and its fresh entry overwrites the stored PendingRequest (promise 0's
entry is replaced by promise 1's), contradicting both halves of the
claim. -/
theorem c5_counterexample :
    alookup "r1" wsOne.pending = some ⟨"s1", 0, goodReq⟩ ∧
    (stepExecute wsOne "s1" (ExecPayload.obj goodReq2) true 6).2
      = ExecResult.dispatched goodReq2 1 ∧
    alookup "r1" (stepExecute wsOne "s1" (ExecPayload.obj goodReq2) true 6).1.pending
      = some ⟨"s1", 1, goodReq2⟩ :=
  ⟨by decide, by decide, by decide⟩

/-- C5 (amended): a submission that passes validation is always accepted:
the PendingRequest is registered under its request id — overwriting any
entry already stored there rather than being rejected — a timeout timer is
armed for the fresh promise, the command is dispatched, and entries at
every other request id are untouched. -/
theorem c5_amended_registration (s : RState) (sid : String) (req : Req)
    (sess : Session) (now : Int) (hs : alookup sid s.sessions = some sess)
    (hv : validationFails req = false) :
    (stepExecute s sid (ExecPayload.obj req) true now).2 = ExecResult.dispatched req s.nextPid ∧
    alookup (req.requestId.getD "") (stepExecute s sid (ExecPayload.obj req) true now).1.pending
      = some ⟨sid, s.nextPid, req⟩ ∧
    (s.nextPid, req.requestId.getD "") ∈ (stepExecute s sid (ExecPayload.obj req) true now).1.armed ∧
    (∀ rid2, rid2 ≠ req.requestId.getD "" →
      alookup rid2 (stepExecute s sid (ExecPayload.obj req) true now).1.pending
        = alookup rid2 s.pending) ∧
    (stepExecute s sid (ExecPayload.obj req) true now).1.nextPid = s.nextPid + 1 ∧
    (stepExecute s sid (ExecPayload.obj req) true now).1.resolutions = s.resolutions := by
  rw [execute_dispatch_eq s sid req sess now hs hv]
  exact ⟨rfl, alookup_aset_self _ _ _,
    List.mem_append_right _ (List.mem_singleton_self _),
    fun rid2 h2 => alookup_aset_ne _ h2 _, rfl, rfl⟩

/-- C5 witness: the amended registration property instantiated at the
concrete state in which `"r1"` is already pending, exercising the
overwrite. -/
theorem c5_witness :
    (alookup "s1" wsOne.sessions = some ⟨"user-1", 0, 5, 1, "9.9.9.9"⟩ ∧
      validationFails goodReq2 = false) ∧
    ((stepExecute wsOne "s1" (ExecPayload.obj goodReq2) true 6).2
        = ExecResult.dispatched goodReq2 wsOne.nextPid ∧
      alookup (goodReq2.requestId.getD "")
          (stepExecute wsOne "s1" (ExecPayload.obj goodReq2) true 6).1.pending
        = some ⟨"s1", wsOne.nextPid, goodReq2⟩ ∧
      (wsOne.nextPid, goodReq2.requestId.getD "")
        ∈ (stepExecute wsOne "s1" (ExecPayload.obj goodReq2) true 6).1.armed ∧
      (∀ rid2, rid2 ≠ goodReq2.requestId.getD "" →
        alookup rid2 (stepExecute wsOne "s1" (ExecPayload.obj goodReq2) true 6).1.pending
          = alookup rid2 wsOne.pending) ∧
      (stepExecute wsOne "s1" (ExecPayload.obj goodReq2) true 6).1.nextPid = wsOne.nextPid + 1 ∧
      (stepExecute wsOne "s1" (ExecPayload.obj goodReq2) true 6).1.resolutions
        = wsOne.resolutions) :=
  ⟨⟨by decide, by decide⟩,
    c5_amended_registration wsOne "s1" goodReq2 ⟨"user-1", 0, 5, 1, "9.9.9.9"⟩ 6
      (by decide) (by decide)⟩

/-- C6 counterexample: an admission check that is denied for missing
identity has already recorded the attempt — from the empty state, a check
with no `userId` returns the identity denial yet leaves `now = 0` in the
attempt log for the address, contradicting the claimed identity-first
order and the claimed untouched log on identity denials. -/
theorem c6_counterexample :
    (stepAuthorize initState [] "9.9.9.9" none none 0).2
      = some DenyReason.missingIdentity ∧
    alookup "9.9.9.9" initState.attempts = none ∧
    alookup "9.9.9.9" (stepAuthorize initState [] "9.9.9.9" none none 0).1.attempts
      = some [0] :=
  ⟨by decide, by decide, by decide⟩

/-- C6 (amended): the admission middleware checks the rate limit first and
the identity and origin only afterwards; the ConnectionAttemptLog is left
untouched exactly on a TooManyAttempts denial, and `now` is recorded on
every check that passes the rate-limit step — including checks that are
then denied for missing identity or for a disallowed origin. -/
theorem c6_amended_admission_order (s : RState) (al : List String) (ip : String)
    (uid origin : Option String) (now : Int) :
    (10 ≤ (recentOf s ip now).length →
      stepAuthorize s al ip uid origin now = (s, some DenyReason.tooManyAttempts)) ∧
    ((recentOf s ip now).length < 10 →
      alookup ip (stepAuthorize s al ip uid origin now).1.attempts
        = some (recentOf s ip now ++ [now]) ∧
      (∀ ip2, ip2 ≠ ip →
        alookup ip2 (stepAuthorize s al ip uid origin now).1.attempts
          = alookup ip2 s.attempts) ∧
      (stepAuthorize s al ip uid origin now).1.sessions = s.sessions ∧
      (stepAuthorize s al ip uid origin now).1.pending = s.pending ∧
      (stepAuthorize s al ip uid origin now).1.armed = s.armed ∧
      (stepAuthorize s al ip uid origin now).1.resolutions = s.resolutions ∧
      (falsyOptStr uid = true →
        (stepAuthorize s al ip uid origin now).2 = some DenyReason.missingIdentity) ∧
      (falsyOptStr uid = false → falsyOptStr origin = false →
        decide ((origin.getD "") ∈ al) = false →
        (stepAuthorize s al ip uid origin now).2 = some DenyReason.originNotAllowed) ∧
      (falsyOptStr uid = false →
        (falsyOptStr origin = true ∨ decide ((origin.getD "") ∈ al) = true) →
        (stepAuthorize s al ip uid origin now).2 = none)) := by
  constructor
  · intro h
    simp [stepAuthorize, decide_eq_true_eq, h]
  · intro h
    have h' : ¬ (10 ≤ (recentOf s ip now).length) := Nat.not_le.mpr h
    have hatt : (stepAuthorize s al ip uid origin now).1
        = { s with attempts := aset ip (recentOf s ip now ++ [now]) s.attempts } := by
      unfold stepAuthorize
      rw [if_neg (by simp only [decide_eq_true_eq]; exact h')]
      split
      · rfl
      · split
        · rfl
        · rfl
    refine ⟨?_, ?_, ?_, ?_, ?_, ?_, ?_, ?_, ?_⟩
    · rw [hatt]; exact alookup_aset_self _ _ _
    · intro ip2 h2; rw [hatt]; exact alookup_aset_ne _ h2 _
    · rw [hatt]
    · rw [hatt]
    · rw [hatt]
    · rw [hatt]
    · intro hfu
      simp [stepAuthorize, h', hfu]
    · intro hfu hfo hmem
      simp [stepAuthorize, h', hfu, hfo, hmem]
    · intro hfu hor
      rcases hor with hfo | hmem
      · simp [stepAuthorize, h', hfu, hfo]
      · simp [stepAuthorize, h', hfu, hmem]

/-- C6 witness: the amended admission behavior instantiated at the empty
state for an identity-less check within the rate limit (attempt recorded,
identity denial). -/
theorem c6_witness :
    ((recentOf initState "9.9.9.9" 0).length < 10) ∧
    (alookup "9.9.9.9" (stepAuthorize initState [] "9.9.9.9" none none 0).1.attempts
        = some (recentOf initState "9.9.9.9" 0 ++ [0]) ∧
      (∀ ip2, ip2 ≠ "9.9.9.9" →
        alookup ip2 (stepAuthorize initState [] "9.9.9.9" none none 0).1.attempts
          = alookup ip2 initState.attempts) ∧
      (stepAuthorize initState [] "9.9.9.9" none none 0).1.sessions
        = initState.sessions ∧
      (stepAuthorize initState [] "9.9.9.9" none none 0).1.pending
        = initState.pending ∧
      (stepAuthorize initState [] "9.9.9.9" none none 0).1.armed = initState.armed ∧
      (stepAuthorize initState [] "9.9.9.9" none none 0).1.resolutions
        = initState.resolutions ∧
      (falsyOptStr (none : Option String) = true →
        (stepAuthorize initState [] "9.9.9.9" none none 0).2
          = some DenyReason.missingIdentity) ∧
      (falsyOptStr (none : Option String) = false →
        falsyOptStr (none : Option String) = false →
        decide (((none : Option String).getD "") ∈ ([] : List String)) = false →
        (stepAuthorize initState [] "9.9.9.9" none none 0).2
          = some DenyReason.originNotAllowed) ∧
      (falsyOptStr (none : Option String) = false →
        (falsyOptStr (none : Option String) = true ∨
          decide (((none : Option String).getD "") ∈ ([] : List String)) = true) →
        (stepAuthorize initState [] "9.9.9.9" none none 0).2 = none)) :=
  ⟨by decide,
    (c6_amended_admission_order initState [] "9.9.9.9" none none 0).2 (by decide)⟩

/-- C8 (evidence for the code bug): the WHATWG `hostname` getter serializes
an IPv6 host inside brackets, so for `http://[::1]:3000/` the code compares
`"[::1]"` against `"::1"` and never matches — the loopback address `::1`,
which the code's own comment and the spec both admit, is rejected.  The
surrounding conjuncts pin the rest of the claimed boundary to the code:
`http://example.com/` is rejected with a ValidationError and dispatches
nothing, and the loopback names and private ranges behave as claimed. -/
theorem c8_ipv6_loopback_divergence :
    parseHttpUrl "http://[::1]:3000/" = some ⟨"http:", "[::1]"⟩ ∧
    isLocalhostUrl "http://[::1]:3000/" = false ∧
    isRelayTargetSpec "http://[::1]:3000/" = true ∧
    isLocalhostUrl "http://example.com/" = false ∧
    (stepExecute wsConnect "s1" (ExecPayload.obj exReq) true 5).2
      = ExecResult.cbError "Only localhost URLs are allowed for relay execution" ∧
    (stepExecute wsConnect "s1" (ExecPayload.obj exReq) true 5).1.pending = [] ∧
    (stepExecute wsConnect "s1" (ExecPayload.obj exReq) true 5).1.armed = [] ∧
    isLocalhostUrl "http://localhost:3000/api" = true ∧
    isLocalhostUrl "http://127.0.0.1/" = true ∧
    isLocalhostUrl "http://10.0.0.5/" = true ∧
    isLocalhostUrl "http://192.168.1.7/" = true ∧
    isLocalhostUrl "http://172.16.0.1/" = true ∧
    isLocalhostUrl "http://172.32.0.1/" = false ∧
    isLocalhostUrl "https://localhost/" = false :=
  ⟨by decide, by decide, by decide, by decide, by decide, by decide, by decide,
    by decide, by decide, by decide, by decide, by decide, by decide, by decide⟩

/-! ### C9: the size limit counts UTF-16 units, not bytes -/

theorem jsLength_replicate (n : Nat) (c : Char) :
    jsLength (String.mk (List.replicate n c)) = n * jsUnits c := by
  simp [jsLength, List.map_replicate, List.sum_replicate, smul_eq_mul]

theorem utf8Length_replicate (n : Nat) (c : Char) :
    utf8Length (String.mk (List.replicate n c)) = n * utf8CharBytes c := by
  simp [utf8Length, List.map_replicate, List.sum_replicate, smul_eq_mul]

/-- 30000 copies of the euro sign: 30000 UTF-16 units but 90000 UTF-8
bytes. -/
def euroSerialized : String := String.mk (List.replicate 30000 '€')

def euroReq : Req :=
  { requestId := some "r1", method := some "GET",
    url := some "http://localhost:3000/api", serialized := euroSerialized }

/-- 70 KiB of ASCII: 71680 UTF-16 units and as many bytes. -/
def ascii70k : String := String.mk (List.replicate 71680 'a')

def req70k : Req :=
  { requestId := some "r2", method := some "GET",
    url := some "http://localhost:3000/api", serialized := ascii70k }

/-- C9 counterexample: a command whose serialization is 90000 bytes of
UTF-8 — well past the claimed 64 KiB byte bound — passes the size check
and is dispatched, because the handler measures
`JSON.stringify(request).length`, which counts UTF-16 code units (30000
here), not bytes. -/
theorem c9_counterexample :
    jsLength euroReq.serialized = 30000 ∧
    utf8Length euroReq.serialized = 90000 ∧
    (stepExecute wsConnect "s1" (ExecPayload.obj euroReq) true 5).2
      = ExecResult.dispatched euroReq 0 := by
  have hjs : jsLength euroSerialized = 30000 := by
    unfold euroSerialized
    rw [jsLength_replicate]
    decide
  have hutf : utf8Length euroSerialized = 90000 := by
    unfold euroSerialized
    rw [utf8Length_replicate]
    decide
  have hv : validationFails euroReq = false := by
    simp only [validationFails]
    rw [show euroReq.serialized = euroSerialized from rfl, hjs]
    decide
  refine ⟨hjs, hutf, ?_⟩
  rw [execute_dispatch_eq wsConnect "s1" euroReq ⟨"user-1", 0, 0, 0, "9.9.9.9"⟩ 5
    (by decide) hv]
  rfl

/-- The execute handler's size rejection in closed form. -/
theorem execute_too_large_eq (s : RState) (sid : String) (req : Req) (sess : Session)
    (now : Int) (hs : alookup sid s.sessions = some sess)
    (h1 : (falsyOptStr req.requestId || falsyOptStr req.method
      || falsyOptStr req.url) = false)
    (h2 : isLocalhostUrl (req.url.getD "") = true)
    (h3 : (upperString (req.method.getD "")) ∈ validMethods)
    (hsz : 64 * 1024 < jsLength req.serialized) :
    stepExecute s sid (ExecPayload.obj req) true now
      = (touchState s sid now sess, ExecResult.cbError "Request too large") := by
  simp [stepExecute, stepExecuteBody, hs, h1, h2, h3, hsz]

/-- C9 (amended): for a submission whose other fields pass validation, the
size check passes exactly when the serialized command's UTF-16 code-unit
count (JavaScript string `length`) is at most 64·1024; beyond that bound
the submission is rejected with the size ValidationError.  The byte length
of the serialization plays no role (see the counterexample). -/
theorem c9_amended_size_limit (s : RState) (sid : String) (req : Req) (sess : Session)
    (now : Int) (hs : alookup sid s.sessions = some sess)
    (h1 : (falsyOptStr req.requestId || falsyOptStr req.method
      || falsyOptStr req.url) = false)
    (h2 : isLocalhostUrl (req.url.getD "") = true)
    (h3 : (upperString (req.method.getD "")) ∈ validMethods) :
    ((stepExecute s sid (ExecPayload.obj req) true now).2 = ExecResult.dispatched req s.nextPid ↔
      jsLength req.serialized ≤ 64 * 1024) ∧
    (64 * 1024 < jsLength req.serialized →
      (stepExecute s sid (ExecPayload.obj req) true now).2
        = ExecResult.cbError "Request too large") := by
  by_cases hsz : jsLength req.serialized ≤ 64 * 1024
  · have hv : validationFails req = false := by
      simp [validationFails, h1, h2, h3, Nat.not_lt.mpr hsz]
    rw [execute_dispatch_eq s sid req sess now hs hv]
    refine ⟨⟨fun _ => hsz, fun _ => rfl⟩, ?_⟩
    intro hcon
    exact absurd hcon (Nat.not_lt.mpr hsz)
  · have hsz' : 64 * 1024 < jsLength req.serialized := Nat.not_le.mp hsz
    rw [execute_too_large_eq s sid req sess now hs h1 h2 h3 hsz']
    refine ⟨⟨?_, ?_⟩, fun _ => rfl⟩
    · intro hcon
      simp at hcon
    · intro hle
      omega

/-- C9 witness: the amended size rule instantiated at a 71680-unit (70 KiB
ASCII) serialized command, which is rejected. -/
theorem c9_witness :
    (alookup "s1" wsConnect.sessions = some ⟨"user-1", 0, 0, 0, "9.9.9.9"⟩ ∧
      (falsyOptStr req70k.requestId || falsyOptStr req70k.method
        || falsyOptStr req70k.url) = false ∧
      isLocalhostUrl (req70k.url.getD "") = true ∧
      (upperString (req70k.method.getD "")) ∈ validMethods) ∧
    jsLength req70k.serialized = 71680 ∧
    (((stepExecute wsConnect "s1" (ExecPayload.obj req70k) true 5).2
        = ExecResult.dispatched req70k wsConnect.nextPid ↔
      jsLength req70k.serialized ≤ 64 * 1024) ∧
    (64 * 1024 < jsLength req70k.serialized →
      (stepExecute wsConnect "s1" (ExecPayload.obj req70k) true 5).2
        = ExecResult.cbError "Request too large")) := by
  have hjs : jsLength req70k.serialized = 71680 := by
    show jsLength ascii70k = 71680
    unfold ascii70k
    rw [jsLength_replicate]
    decide
  refine ⟨⟨by decide, by decide, by decide, by decide⟩, hjs, ?_⟩
  exact c9_amended_size_limit wsConnect "s1" req70k ⟨"user-1", 0, 0, 0, "9.9.9.9"⟩ 5
    (by decide) (by decide) (by decide) (by decide)

/-! ### C7: the sliding-window rate limit -/

/-- Iterated admission checks from one address with a valid identity and no
declared origin, at the given sequence of clock values; returns the final
state and the per-check verdicts. -/
def authSeq (s : RState) (ip uid : String) : List Int → RState × List (Option DenyReason)
  | [] => (s, [])
  | t :: ts =>
    ((authSeq (stepAuthorize s [] ip (some uid) none t).1 ip uid ts).1,
      (stepAuthorize s [] ip (some uid) none t).2 ::
        (authSeq (stepAuthorize s [] ip (some uid) none t).1 ip uid ts).2)

/-- While fewer than 10 attempts are on record and every new attempt falls
within 60 s of everything recorded, each check is allowed and appends its
timestamp. -/
theorem authSeq_allows (ip uid : String) (huid : uid ≠ "") :
    ∀ (ts : List Int) (s : RState) (prev : List Int),
      (alookup ip s.attempts).getD [] = prev →
      prev.length + ts.length ≤ 10 →
      (∀ t' ∈ ts, ∀ t ∈ prev, t' - t < 60000) →
      List.Pairwise (fun a b => b - a < 60000) ts →
      (authSeq s ip uid ts).2 = List.replicate ts.length none ∧
      (alookup ip (authSeq s ip uid ts).1.attempts).getD [] = prev ++ ts := by
  intro ts
  induction ts with
  | nil =>
    intro s prev hprev _ _ _
    exact ⟨rfl, by simpa using hprev⟩
  | cons t rest ih =>
    intro s prev hprev hlen hwin hpair
    have hrec : recentOf s ip t = prev := by
      unfold recentOf
      rw [hprev]
      apply List.filter_eq_self.mpr
      intro a ha
      exact decide_eq_true (hwin t (List.mem_cons_self _ _) a ha)
    have hlenp : ¬ (10 ≤ prev.length) := by
      simp only [List.length_cons] at hlen
      omega
    have hstep : stepAuthorize s [] ip (some uid) none t
        = ({ s with attempts := aset ip (prev ++ [t]) s.attempts }, none) := by
      unfold stepAuthorize
      rw [hrec]
      rw [if_neg (by simp only [decide_eq_true_eq]; exact hlenp)]
      rw [if_neg (by simp [falsyOptStr, huid])]
      rw [if_neg (by simp [falsyOptStr])]
    have hprev' : (alookup ip (stepAuthorize s [] ip (some uid) none t).1.attempts).getD []
        = prev ++ [t] := by
      rw [hstep]
      simp [alookup_aset_self]
    have hwin' : ∀ t' ∈ rest, ∀ a ∈ prev ++ [t], t' - a < 60000 := by
      intro t' ht' a ha
      rcases List.mem_append.mp ha with ha | ha
      · exact hwin t' (List.mem_cons_of_mem _ ht') a ha
      · rw [List.mem_singleton] at ha
        subst ha
        exact (List.pairwise_cons.mp hpair).1 t' ht'
    have hlen'' : (prev ++ [t]).length + rest.length ≤ 10 := by
      simp only [List.length_append, List.length_cons, List.length_nil] at hlen ⊢
      omega
    have hres := ih (stepAuthorize s [] ip (some uid) none t).1 (prev ++ [t]) hprev'
      hlen'' hwin' (List.pairwise_cons.mp hpair).2
    constructor
    · show (stepAuthorize s [] ip (some uid) none t).2
          :: (authSeq (stepAuthorize s [] ip (some uid) none t).1 ip uid rest).2
          = List.replicate (t :: rest).length none
      rw [hres.1, hstep]
      simp [List.replicate_succ]
    · show (alookup ip
          (authSeq (stepAuthorize s [] ip (some uid) none t).1 ip uid rest).1.attempts).getD []
          = prev ++ t :: rest
      rw [hres.2]
      simp

/-- C7: with the hard-coded limit of 10 attempts per trailing 60 s window,
for any address with an empty attempt record: ten admission attempts
within the window (valid identity, no origin) are all allowed — the 10th
included — an 11th within the window is denied TooManyAttempts and leaves
the engine state untouched, and once 60 s have elapsed since the earliest
counted attempt a new attempt is allowed again. -/
theorem c7_rate_limit_window (s : RState) (ip uid : String) (huid : uid ≠ "")
    (ts : List Int) (hlen : ts.length = 10)
    (hfresh : (alookup ip s.attempts).getD [] = [])
    (hwin : ∀ t ∈ ts, ∀ t' ∈ ts, t' - t < 60000)
    (t11 T : Int)
    (ht11 : ∀ t ∈ ts, t11 - t < 60000)
    (hT : ∀ h, ts.head? = some h → 60000 ≤ T - h) :
    (authSeq s ip uid ts).2 = List.replicate 10 none ∧
    stepAuthorize (authSeq s ip uid ts).1 [] ip (some uid) none t11
      = ((authSeq s ip uid ts).1, some DenyReason.tooManyAttempts) ∧
    (stepAuthorize (authSeq s ip uid ts).1 [] ip (some uid) none T).2 = none := by
  have hpair : List.Pairwise (fun a b => b - a < 60000) ts := by
    rw [List.pairwise_iff_forall_sublist]
    intro a b hsub
    have ha := hsub.subset (List.mem_cons_self a [b])
    have hb := hsub.subset (List.mem_cons_of_mem a (List.mem_singleton_self b))
    exact hwin a ha b hb
  have hrun := authSeq_allows ip uid huid ts s [] hfresh
    (by simp [hlen]) (by intro t' _ a ha; exact absurd ha (List.not_mem_nil a)) hpair
  have hatt : (alookup ip (authSeq s ip uid ts).1.attempts).getD [] = ts := by
    simpa using hrun.2
  refine ⟨by simpa [hlen] using hrun.1, ?_, ?_⟩
  · have hrec : recentOf (authSeq s ip uid ts).1 ip t11 = ts := by
      unfold recentOf
      rw [hatt]
      apply List.filter_eq_self.mpr
      intro a ha
      exact decide_eq_true (ht11 a ha)
    unfold stepAuthorize
    rw [hrec, if_pos (by rw [hlen]; decide)]
  · obtain ⟨h, rest, hcons⟩ : ∃ h rest, ts = h :: rest := by
      cases ts with
      | nil => simp at hlen
      | cons h rest => exact ⟨h, rest, rfl⟩
    have hTh : 60000 ≤ T - h := hT h (by rw [hcons]; rfl)
    have hrecT : (recentOf (authSeq s ip uid ts).1 ip T).length ≤ 9 := by
      unfold recentOf
      rw [hatt, hcons]
      rw [List.filter_cons_of_neg (by simp only [decide_eq_true_eq]; omega)]
      have h9 : rest.length = 9 := by
        have h10 : (h :: rest).length = 10 := hcons ▸ hlen
        simpa using h10
      calc (rest.filter (fun t => decide (T - t < 60000))).length
          ≤ rest.length := List.length_filter_le _ _
        _ = 9 := h9
    have hlt : ¬ (10 ≤ (recentOf (authSeq s ip uid ts).1 ip T).length) := by omega
    unfold stepAuthorize
    rw [if_neg (by simp only [decide_eq_true_eq]; exact hlt)]
    rw [if_neg (by simp [falsyOptStr, huid])]
    rw [if_neg (by simp [falsyOptStr])]

/-- C7 witness: ten attempts at milliseconds 0..9, an 11th at 10, and a
fresh attempt at 60000 — exactly when the earliest counted attempt leaves
the window. -/
theorem c7_witness :
    ("u" ≠ "" ∧
      ([0, 1, 2, 3, 4, 5, 6, 7, 8, 9] : List Int).length = 10 ∧
      (alookup "1.2.3.4" initState.attempts).getD [] = [] ∧
      (∀ t ∈ ([0, 1, 2, 3, 4, 5, 6, 7, 8, 9] : List Int),
        ∀ t' ∈ ([0, 1, 2, 3, 4, 5, 6, 7, 8, 9] : List Int), t' - t < 60000) ∧
      (∀ t ∈ ([0, 1, 2, 3, 4, 5, 6, 7, 8, 9] : List Int), (10 : Int) - t < 60000) ∧
      (∀ h, ([0, 1, 2, 3, 4, 5, 6, 7, 8, 9] : List Int).head? = some h →
        60000 ≤ (60000 : Int) - h)) ∧
    ((authSeq initState "1.2.3.4" "u" [0, 1, 2, 3, 4, 5, 6, 7, 8, 9]).2
        = List.replicate 10 none ∧
      stepAuthorize (authSeq initState "1.2.3.4" "u" [0, 1, 2, 3, 4, 5, 6, 7, 8, 9]).1
          [] "1.2.3.4" (some "u") none 10
        = ((authSeq initState "1.2.3.4" "u" [0, 1, 2, 3, 4, 5, 6, 7, 8, 9]).1,
            some DenyReason.tooManyAttempts) ∧
      (stepAuthorize (authSeq initState "1.2.3.4" "u" [0, 1, 2, 3, 4, 5, 6, 7, 8, 9]).1
          [] "1.2.3.4" (some "u") none 60000).2 = none) :=
  ⟨⟨by decide, by decide, by decide, by decide, by decide, by decide⟩,
    c7_rate_limit_window initState "1.2.3.4" "u" (by decide)
      [0, 1, 2, 3, 4, 5, 6, 7, 8, 9] (by decide) (by decide) (by decide)
      10 60000 (by decide) (by decide)⟩

end Relay
